import Mathlib

/-!
# review-assigner: the store layer

A shallow embedding of `internal/store` (store.go, innerMethods.go, errors.go),
`internal/models` and the error mapping of `internal/handlers` of the review-assigner
service.

The relational store is modelled as two tables held as lists in storage order.  Every
SQL statement of the source is translated to the list operation it denotes:
`SELECT ... WHERE` is a `filter`, `UPDATE ... WHERE` is a `map` that rewrites the matching
rows, `QueryRow(...).Scan` reads the first row of the result and reports `pgx.ErrNoRows`
when there is none, `INSERT` appends.  Storage failures (a lost connection, a failed
commit) are not modelled: every statement succeeds.  Operations run one after the other;
each returns its result together with the store it leaves behind, which is the store it
was given whenever it returns before its first write.

Time stamps (`time.Now()`, `CURRENT_TIMESTAMP`) are natural numbers handed in by the
caller; the outcome of `rand.Shuffle` is an oracle `shuffle`, a function from the list
before the shuffle to the list after it.
-/

namespace ReviewAssigner

/-! ## models -/

/-- User of models.go. -/
structure User where
  UserID : String
  Username : String
  TeamName : String
  IsActive : Bool
  deriving DecidableEq, Repr

/-- TeamMember of models.go. -/
structure TeamMember where
  UserID : String
  Username : String
  IsActive : Bool
  deriving DecidableEq, Repr

/-- Team of models.go. -/
structure Team where
  TeamName : String
  Members : List TeamMember
  deriving DecidableEq, Repr

/-- PullRequest of models.go; `time.Time` is a natural number, `*time.Time` an option. -/
structure PullRequest where
  PullRequestID : String
  PullRequestName : String
  AuthorID : String
  Status : String
  AssignedReviewers : List String
  CreatedAt : Nat
  MergedAt : Option Nat
  deriving DecidableEq, Repr

/-! ## errors -/

/-- The sentinel errors of errors.go, and `fmt.Errorf("msg: %w", inner)`, which builds a
new error value around `inner`. -/
inductive Error where
  | ErrTeamNotFound
  | ErrTeamExists
  | ErrPRExists
  | ErrPRMerged
  | ErrNotAssigned
  | ErrNoCandidate
  | ErrNotFound
  | wrap (msg : String) (inner : Error)
  deriving DecidableEq, Repr

deriving instance DecidableEq for Except

/-! ## the database -/

/-- The two tables behind `Store.Pool`, each in storage order.  The source creates no
table; its statements rely on `users` being keyed by `user_id`
(`ON CONFLICT (user_id)`) and read `pull_requests` by `pull_request_id`. -/
structure Store where
  users : List User
  pull_requests : List PullRequest
  deriving DecidableEq, Repr

/-- The database before any operation. -/
def Store.empty : Store := ⟨[], []⟩

/-- Modelled from the spec: the table declarations are not part of the source; the
persisted shape is "a users table keyed by user id" and "a pull-requests table keyed by
PR id".  No two user rows share a `user_id`, no two pull request rows share a
`pull_request_id`. -/
def Store.Keyed (s : Store) : Prop :=
  (s.users.map (fun u => u.UserID)).Nodup ∧
  (s.pull_requests.map (fun p => p.PullRequestID)).Nodup

instance (s : Store) : Decidable s.Keyed := by
  unfold Store.Keyed; exact inferInstance

/-- A scalar subquery `(SELECT col FROM ... WHERE ...)` used as an expression: NULL when
no row matches, the value of the row otherwise (the key constraints leave at most one). -/
def scalarSubquery {α : Type} (rows : List α) : Option α := rows.head?

/-- The jsonb operator `?` on an array of strings: is the string an element of it. -/
def jsonbExists (arr : List String) (key : String) : Bool := arr.any (fun x => x == key)

/-! ## pure helpers of store.go -/

/-- minInt of store.go. -/
def minInt (a b : Int) : Int := if a < b then a else b

/-- contains of store.go. -/
def contains : List String → String → Bool
  | [], _ => false
  | s :: rest, item => if s == item then true else contains rest item

/-- replaceInSlice of store.go: a fresh slice, filled position by position. -/
def replaceInSlice : List String → String → String → List String
  | [], _, _ => []
  | v :: rest, old, replacement =>
    (if v == old then replacement else v) :: replaceInSlice rest old replacement

/-- selectReviewers of store.go; `shuffle` is the outcome of `rand.Shuffle` on the copy. -/
def selectReviewers (shuffle : List String → List String) (candidates : List String) :
    List String :=
  if candidates.length == 0 then []
  else if candidates.length ≤ 2 then candidates
  else
    let shuffled := shuffle candidates
    let count := minInt 2 shuffled.length
    shuffled.take count.toNat

/-! ## Store methods of store.go -/

/-- The upsert of CreateTeam: `INSERT ... ON CONFLICT (user_id) DO UPDATE SET` username,
team_name and is_active to the new values. -/
def upsertUser (users : List User) (u : User) : List User :=
  if users.any (fun r => r.UserID == u.UserID) then
    users.map (fun r => if r.UserID == u.UserID then u else r)
  else users ++ [u]

/-- CreateTeam of store.go. -/
def CreateTeam (s : Store) (t : Team) : Except Error Unit × Store :=
  let existingTeamCount := (s.users.filter (fun u => u.TeamName == t.TeamName)).length
  if existingTeamCount > 0 then (.error .ErrTeamExists, s)
  else
    let users := t.Members.foldl
      (fun us m => upsertUser us ⟨m.UserID, m.Username, t.TeamName, m.IsActive⟩) s.users
    (.ok (), { s with users := users })

/-- GetTeam of store.go. -/
def GetTeam (s : Store) (teamName : String) : Except Error Team :=
  let members := (s.users.filter (fun u => u.TeamName == teamName)).map
    (fun u => (⟨u.UserID, u.Username, u.IsActive⟩ : TeamMember))
  if members.length == 0 then .error (.wrap "GetTeam" .ErrTeamNotFound)
  else .ok ⟨teamName, members⟩

/-- SetUserActive of store.go: one `UPDATE ... RETURNING`, outside any transaction. -/
def SetUserActive (s : Store) (userID : String) (isActive : Bool) :
    Except Error User × Store :=
  let users := s.users.map
    (fun u => if u.UserID == userID then { u with IsActive := isActive } else u)
  match users.find? (fun u => u.UserID == userID) with
  | none => (.error (.wrap "set user active" .ErrNotFound), { s with users := users })
  | some user => (.ok user, { s with users := users })

/-- The candidate query of CreatePR: the active users of the team other than the
author, in storage order. -/
def createPRCandidates (s : Store) (authorTeam authorID : String) : List String :=
  (s.users.filter
    (fun u => u.TeamName == authorTeam && u.IsActive == true && u.UserID != authorID)).map
    (fun u => u.UserID)

/-- CreatePR of store.go; `now` is `time.Now()`.  The insert names no `merged_at`, so the
stored row has it NULL, as the returned value has it nil. -/
def CreatePR (shuffle : List String → List String) (now : Nat) (s : Store)
    (prID prName authorID : String) : Except Error PullRequest × Store :=
  let idTaken := s.pull_requests.any (fun p => p.PullRequestID == prID)
  if idTaken then (.error .ErrPRExists, s)
  else
    match s.users.find? (fun u => u.UserID == authorID) with
    | none => (.error .ErrNotFound, s)
    | some author =>
      let authorTeam := author.TeamName
      let candidates := createPRCandidates s authorTeam authorID
      let reviewers := selectReviewers shuffle candidates
      let pr : PullRequest :=
        { PullRequestID := prID, PullRequestName := prName, AuthorID := authorID,
          Status := "OPEN", AssignedReviewers := reviewers, CreatedAt := now,
          MergedAt := none }
      (.ok pr, { s with pull_requests := s.pull_requests ++ [pr] })

/-- The SET clause of MergePR on one row: `status = 'MERGED'`,
`merged_at = COALESCE(merged_at, CURRENT_TIMESTAMP)`. -/
def mergeRow (now : Nat) (p : PullRequest) : PullRequest :=
  { p with Status := "MERGED", MergedAt := some (p.MergedAt.getD now) }

/-- MergePR of store.go; `now` is `CURRENT_TIMESTAMP`. -/
def MergePR (now : Nat) (s : Store) (prID : String) : Except Error PullRequest × Store :=
  let prs := s.pull_requests.map (fun p =>
    if p.PullRequestID == prID then mergeRow now p else p)
  match prs.find? (fun p => p.PullRequestID == prID) with
  | none => (.error .ErrNotFound, { s with pull_requests := prs })
  | some pr => (.ok pr, { s with pull_requests := prs })

/-- The candidate query shared by ReassignReviewer and reassignReviewerInTx.  A
comparison with a NULL subquery is not true, so the row is left out. -/
def reassignCandidates (s : Store) (oldUserID prID : String) : List String :=
  let oldTeam := scalarSubquery
    ((s.users.filter (fun u => u.UserID == oldUserID)).map (fun u => u.TeamName))
  let author := scalarSubquery
    ((s.pull_requests.filter (fun p => p.PullRequestID == prID)).map (fun p => p.AuthorID))
  (s.users.filter (fun u =>
    (match oldTeam with
      | some t => u.TeamName == t
      | none => false) &&
    u.IsActive == true &&
    u.UserID != oldUserID &&
    (match author with
      | some a => u.UserID != a
      | none => false) &&
    !(s.pull_requests.any (fun pr =>
        pr.PullRequestID == prID && jsonbExists pr.AssignedReviewers u.UserID)))).map
    (fun u => u.UserID)

/-- The write of a reassignment: `UPDATE pull_requests SET assigned_reviewers = $1
WHERE pull_request_id = $2`. -/
def updateReviewers (s : Store) (prID : String) (newReviewers : List String) : Store :=
  { s with pull_requests := s.pull_requests.map (fun p =>
      if p.PullRequestID == prID then { p with AssignedReviewers := newReviewers } else p) }

/-- ReassignReviewer of store.go. -/
def ReassignReviewer (s : Store) (prID oldUserID : String) :
    Except Error (PullRequest × String) × Store :=
  match s.pull_requests.find? (fun p => p.PullRequestID == prID) with
  | none => (.error .ErrNotFound, s)
  | some pr =>
    if pr.Status == "MERGED" then (.error .ErrPRMerged, s)
    else if !contains pr.AssignedReviewers oldUserID then (.error .ErrNotAssigned, s)
    else
      match reassignCandidates s oldUserID prID with
      | [] => (.error .ErrNoCandidate, s)
      | newUserID :: _ =>
        let newReviewers := replaceInSlice pr.AssignedReviewers oldUserID newUserID
        (.ok ({ pr with AssignedReviewers := newReviewers }, newUserID),
          updateReviewers s prID newReviewers)

/-! ## innerMethods.go -/

/-- getUserReviewsInTx of innerMethods.go: only four columns are read, the other fields
keep their zero values. -/
def getUserReviewsInTx (s : Store) (userID : String) : List PullRequest :=
  (s.pull_requests.filter (fun p => jsonbExists p.AssignedReviewers userID)).map (fun p =>
    { PullRequestID := p.PullRequestID, PullRequestName := p.PullRequestName,
      AuthorID := p.AuthorID, Status := p.Status, AssignedReviewers := [],
      CreatedAt := 0, MergedAt := none })

/-- reassignReviewerInTx of innerMethods.go. -/
def reassignReviewerInTx (s : Store) (prID oldUserID : String) :
    Except Error (PullRequest × String) × Store :=
  match s.pull_requests.find? (fun p => p.PullRequestID == prID) with
  | none => (.error .ErrNotFound, s)
  | some pr =>
    if pr.Status == "MERGED" then (.error .ErrPRMerged, s)
    else if !contains pr.AssignedReviewers oldUserID then (.error .ErrNotAssigned, s)
    else
      match reassignCandidates s oldUserID prID with
      | [] => (.error .ErrNoCandidate, s)
      | newUserID :: _ =>
        let newReviewers := replaceInSlice pr.AssignedReviewers oldUserID newUserID
        (.ok ({ pr with AssignedReviewers := newReviewers }, newUserID),
          updateReviewers s prID newReviewers)

/-- The loop of deactivateUserInTx: one reassignment attempt per OPEN pull request of the
list, its error logged and dropped. -/
def reassignOpenReviews (s : Store) (userID : String) : List PullRequest → Store
  | [] => s
  | pr :: rest =>
    if pr.Status == "OPEN" then
      reassignOpenReviews (reassignReviewerInTx s pr.PullRequestID userID).2 userID rest
    else reassignOpenReviews s userID rest

/-- deactivateUserInTx of innerMethods.go; the store returned is the state of the
transaction when the function returns. -/
def deactivateUserInTx (s : Store) (userID : String) : Except Error User × Store :=
  let prs := getUserReviewsInTx s userID
  let s1 := reassignOpenReviews s userID prs
  let users := s1.users.map
    (fun u => if u.UserID == userID then { u with IsActive := false } else u)
  match users.find? (fun u => u.UserID == userID) with
  | none => (.error (.wrap "set user active" .ErrNotFound), { s1 with users := users })
  | some user => (.ok user, { s1 with users := users })

/-- The store states reachable from the empty store by the store operations, run one
after the other.  The shuffle of a CreatePR call may be any permutation of its input, and
since no query of the source fixes an order, the store may at any time hand out its rows
in another order (`reorder`). -/
inductive Reachable : Store → Prop where
  | init : Reachable Store.empty
  | reorder {s : Store} (users : List User) (prs : List PullRequest) :
      Reachable s → users.Perm s.users → prs.Perm s.pull_requests →
      Reachable ⟨users, prs⟩
  | createTeam {s : Store} (t : Team) : Reachable s → Reachable (CreateTeam s t).2
  | setUserActive {s : Store} (userID : String) (isActive : Bool) :
      Reachable s → Reachable (SetUserActive s userID isActive).2
  | createPR {s : Store} (shuffle : List String → List String) (now : Nat)
      (prID prName authorID : String) :
      Reachable s → (∀ c, (shuffle c).Perm c) →
      Reachable (CreatePR shuffle now s prID prName authorID).2
  | mergePR {s : Store} (now : Nat) (prID : String) :
      Reachable s → Reachable (MergePR now s prID).2
  | reassignReviewer {s : Store} (prID oldUserID : String) :
      Reachable s → Reachable (ReassignReviewer s prID oldUserID).2
  | deactivateUser {s : Store} (userID : String) :
      Reachable s → Reachable (deactivateUserInTx s userID).2

/-! ## handlers.go -/

/-- What a handler writes: the HTTP status, and the `error.code` of the body when the
body is an ErrorResponse (empty for a data response, whose payload is left out). -/
structure Response where
  status : Nat
  code : String
  deriving DecidableEq, Repr

/-- writeError of handlers.go. -/
def writeError (code : String) (status : Nat) : Response := ⟨status, code⟩

/-- writeJSON of handlers.go on a data payload. -/
def writeJSON (status : Nat) : Response := ⟨status, ""⟩

/-- SetUserActiveRequest of handlers.go. -/
structure SetUserActiveRequest where
  UserID : String
  IsActive : Bool
  deriving DecidableEq, Repr

/-- CreatePRRequest of handlers.go. -/
structure CreatePRRequest where
  PullRequestID : String
  PullRequestName : String
  AuthorID : String
  deriving DecidableEq, Repr

/-- MergePRRequest of handlers.go. -/
structure MergePRRequest where
  PullRequestID : String
  deriving DecidableEq, Repr

/-- ReassignReviewerRequest of handlers.go. -/
structure ReassignReviewerRequest where
  PullRequestID : String
  OldUserID : String
  deriving DecidableEq, Repr

/-- Handler.GetTeam of handlers.go; `teamName` is the query parameter `team_name`. -/
def Handler.GetTeam (s : Store) (method teamName : String) : Response :=
  if method != "GET" then writeError "METHOD_NOT_ALLOWED" 405
  else if teamName == "" then writeError "INVALID_REQUEST" 400
  else
    match ReviewAssigner.GetTeam s teamName with
    | .error err =>
      if err == Error.ErrNotFound then writeError "NOT_FOUND" 404
      else writeError "INTERNAL_ERROR" 500
    | .ok _ => writeJSON 200

/-- Handler.SetUserActive of handlers.go; `body` is what bindJSON decodes, `none` when
it fails. -/
def Handler.SetUserActive (s : Store) (method : String)
    (body : Option SetUserActiveRequest) : Response × Store :=
  if method != "POST" then (writeError "METHOD_NOT_ALLOWED" 405, s)
  else
    match body with
    | none => (writeError "INVALID_REQUEST" 400, s)
    | some req =>
      match ReviewAssigner.SetUserActive s req.UserID req.IsActive with
      | (.error err, s1) =>
        if err == Error.ErrNotFound then (writeError "NOT_FOUND" 404, s1)
        else (writeError "INTERNAL_ERROR" 500, s1)
      | (.ok _, s1) => (writeJSON 200, s1)

/-- Handler.CreatePR of handlers.go. -/
def Handler.CreatePR (shuffle : List String → List String) (now : Nat) (s : Store)
    (method : String) (body : Option CreatePRRequest) : Response × Store :=
  if method != "POST" then (writeError "METHOD_NOT_ALLOWED" 405, s)
  else
    match body with
    | none => (writeError "INVALID_REQUEST" 400, s)
    | some req =>
      match ReviewAssigner.CreatePR shuffle now s req.PullRequestID req.PullRequestName req.AuthorID with
      | (.error err, s1) =>
        if err == Error.ErrPRExists then (writeError "PR_EXISTS" 409, s1)
        else if err == Error.ErrNotFound then (writeError "NOT_FOUND" 404, s1)
        else (writeError "INTERNAL_ERROR" 500, s1)
      | (.ok _, s1) => (writeJSON 201, s1)

/-- Handler.MergePR of handlers.go. -/
def Handler.MergePR (now : Nat) (s : Store) (method : String)
    (body : Option MergePRRequest) : Response × Store :=
  if method != "POST" then (writeError "METHOD_NOT_ALLOWED" 405, s)
  else
    match body with
    | none => (writeError "INVALID_REQUEST" 400, s)
    | some req =>
      match ReviewAssigner.MergePR now s req.PullRequestID with
      | (.error err, s1) =>
        if err == Error.ErrNotFound then (writeError "NOT_FOUND" 404, s1)
        else (writeError "INTERNAL_ERROR" 500, s1)
      | (.ok _, s1) => (writeJSON 200, s1)

/-- Handler.ReassignReviewer of handlers.go. -/
def Handler.ReassignReviewer (s : Store) (method : String)
    (body : Option ReassignReviewerRequest) : Response × Store :=
  if method != "POST" then (writeError "METHOD_NOT_ALLOWED" 405, s)
  else
    match body with
    | none => (writeError "INVALID_REQUEST" 400, s)
    | some req =>
      match ReviewAssigner.ReassignReviewer s req.PullRequestID req.OldUserID with
      | (.error err, s1) =>
        if err == Error.ErrNotFound then (writeError "NOT_FOUND" 404, s1)
        else if err == Error.ErrPRMerged then (writeError "PR_MERGED" 409, s1)
        else if err == Error.ErrNotAssigned then (writeError "NOT_ASSIGNED" 409, s1)
        else if err == Error.ErrNoCandidate then (writeError "NO_CANDIDATE" 409, s1)
        else (writeError "INTERNAL_ERROR" 500, s1)
      | (.ok _, s1) => (writeJSON 200, s1)

/-! ## specification-side definitions and sample stores -/

/-- The candidate pool in the words of the specification: every active user of the old
reviewer's team who is not the old reviewer, not the author, and not already an assigned
reviewer, in storage order. -/
def specCandidatePool (users : List User) (oldTeam oldUserID authorID : String)
    (reviewers : List String) : List String :=
  (users.filter (fun u => decide (u.IsActive = true ∧ u.TeamName = oldTeam ∧
    u.UserID ≠ oldUserID ∧ u.UserID ≠ authorID ∧ u.UserID ∉ reviewers))).map
    (fun u => u.UserID)

/-- The invariant carried along every run: the key constraints, and for every pull
request a duplicate-free reviewer list of at most two ids without the author. -/
def Store.Inv (s : Store) : Prop :=
  s.Keyed ∧ ∀ pr ∈ s.pull_requests,
    pr.AssignedReviewers.Nodup ∧ pr.AuthorID ∉ pr.AssignedReviewers ∧
    pr.AssignedReviewers.length ≤ 2

/-- A store with one team, two OPEN pull requests and a MERGED one. -/
def exampleStore : Store :=
  { users := [⟨"u1", "Ann", "core", true⟩, ⟨"u2", "Bob", "core", true⟩,
      ⟨"u3", "Cid", "core", true⟩, ⟨"u4", "Dee", "core", false⟩],
    pull_requests := [
      { PullRequestID := "pr1", PullRequestName := "one", AuthorID := "u1",
        Status := "OPEN", AssignedReviewers := ["u2"], CreatedAt := 1, MergedAt := none },
      { PullRequestID := "pr2", PullRequestName := "two", AuthorID := "u1",
        Status := "MERGED", AssignedReviewers := ["u2", "u3"], CreatedAt := 2,
        MergedAt := some 3 },
      { PullRequestID := "pr3", PullRequestName := "three", AuthorID := "u1",
        Status := "OPEN", AssignedReviewers := ["u2", "u3"], CreatedAt := 4,
        MergedAt := none }] }

/-- A store with team core of four active members and team infra of two. -/
def teamsStore : Store :=
  { users := [⟨"u1", "Ann", "core", true⟩, ⟨"u2", "Bob", "core", true⟩,
      ⟨"u3", "Cid", "core", true⟩, ⟨"u4", "Dee", "core", true⟩,
      ⟨"v1", "Eve", "infra", true⟩, ⟨"v2", "Fay", "infra", true⟩],
    pull_requests := [] }

/-- The store after creating team core, opening pr1 by u1 and reassigning u4 on it. -/
def runExample : Store :=
  (ReassignReviewer
    (CreatePR List.reverse 7
      (CreateTeam Store.empty
        ⟨"core", [⟨"u1", "Ann", true⟩, ⟨"u2", "Bob", true⟩, ⟨"u3", "Cid", true⟩,
          ⟨"u4", "Dee", true⟩]⟩).2
      "pr1" "one" "u1").2
    "pr1" "u4").2

/-- The candidate query of a reassignment read against one pull request row: what
`reassignCandidates` computes when `p` is the row of the pull request id. -/
def rowCandidates (users : List User) (oldUserID : String) (p : PullRequest) :
    List String :=
  let oldTeam := scalarSubquery
    ((users.filter (fun u => u.UserID == oldUserID)).map (fun u => u.TeamName))
  (users.filter (fun u =>
    (match oldTeam with
      | some t => u.TeamName == t
      | none => false) &&
    u.IsActive == true &&
    u.UserID != oldUserID &&
    u.UserID != p.AuthorID &&
    !(jsonbExists p.AssignedReviewers u.UserID))).map
    (fun u => u.UserID)

/-- The effect of reassignReviewerInTx on the row it reads: the row itself on each of
the four error returns, the row with the substituted reviewer list on success. -/
def reassignRow (users : List User) (oldUserID : String) (p : PullRequest) : PullRequest :=
  if p.Status == "MERGED" then p
  else if !contains p.AssignedReviewers oldUserID then p
  else
    match rowCandidates users oldUserID p with
    | [] => p
    | newUserID :: _ =>
      { p with AssignedReviewers := replaceInSlice p.AssignedReviewers oldUserID newUserID }

/-- The deactivation cascade in the words of the specification, on one pull request:
an OPEN pull request that has the user as reviewer gets the first candidate of its pool
in the place of the user, or stays as it is when the pool is empty; every other pull
request stays as it is. -/
def cascadeRow (users : List User) (oldTeam userID : String) (p : PullRequest) :
    PullRequest :=
  if p.Status = "OPEN" ∧ userID ∈ p.AssignedReviewers then
    match specCandidatePool users oldTeam userID p.AuthorID p.AssignedReviewers with
    | [] => p
    | c :: _ => { p with AssignedReviewers := replaceInSlice p.AssignedReviewers userID c }
  else p


/-- The function errors.Is of the Go standard library on these errors: the error is the
target, or it wraps an error for which this holds. -/
def Error.Is : Error → Error → Bool
  | .wrap msg inner, target => (Error.wrap msg inner == target) || Error.Is inner target
  | e, target => e == target


/-- The store holds the pull request row `pr`, and no other row with its id. -/
def Store.holdsRow (s : Store) (pr : PullRequest) : Prop :=
  pr ∈ s.pull_requests ∧
  ∀ q ∈ s.pull_requests, q.PullRequestID = pr.PullRequestID → q = pr


/-! ## the pure helpers -/

theorem contains_iff_mem (l : List String) (x : String) : contains l x = true ↔ x ∈ l := by
  induction l with
  | nil => simp [contains]
  | cons a l ih =>
    by_cases h : a = x
    · simp [contains, h]
    · have h2 : ¬ x = a := fun e => h e.symm
      simp [contains, h, h2, ih]

theorem contains_eq_false_of_not_mem {l : List String} {x : String} (h : x ∉ l) :
    contains l x = false := by
  cases hc : contains l x with
  | false => rfl
  | true => exact absurd ((contains_iff_mem _ _).mp hc) h

theorem jsonbExists_iff_mem (l : List String) (x : String) :
    jsonbExists l x = true ↔ x ∈ l := by
  unfold jsonbExists
  rw [List.any_eq_true]
  constructor
  · rintro ⟨y, hy, e⟩
    have : y = x := by simpa using e
    exact this ▸ hy
  · intro h
    exact ⟨x, h, by simp⟩

theorem replaceInSlice_eq_map (l : List String) (old new : String) :
    replaceInSlice l old new = l.map (fun v => if v = old then new else v) := by
  induction l with
  | nil => rfl
  | cons a l ih => simp [replaceInSlice, ih]

theorem replaceInSlice_length (l : List String) (old new : String) :
    (replaceInSlice l old new).length = l.length := by
  simp [replaceInSlice_eq_map]

theorem mem_replaceInSlice {l : List String} {old new x : String}
    (h : x ∈ replaceInSlice l old new) : x = new ∨ (x ∈ l ∧ x ≠ old) := by
  rw [replaceInSlice_eq_map, List.mem_map] at h
  obtain ⟨v, hv, rfl⟩ := h
  by_cases e : v = old
  · simp [e]
  · right; simp [e, hv]

theorem replaceInSlice_nodup {l : List String} (old new : String) (hl : l.Nodup)
    (hnew : new ∉ l) : (replaceInSlice l old new).Nodup := by
  induction l with
  | nil => simp [replaceInSlice]
  | cons a l ih =>
    rw [List.nodup_cons] at hl
    have hnl : new ∉ l := fun h => hnew (List.mem_cons_of_mem _ h)
    have hna : new ≠ a := fun h => hnew (h ▸ List.mem_cons_self _ _)
    simp only [replaceInSlice]
    rw [List.nodup_cons]
    refine ⟨?_, ih hl.2 hnl⟩
    intro hmem
    rcases mem_replaceInSlice hmem with h | ⟨h1, h2⟩
    · by_cases e : a = old
      · simp only [e, beq_self_eq_true, if_true] at hmem
        rcases mem_replaceInSlice hmem with _ | ⟨h3, h4⟩
        · rw [replaceInSlice_eq_map, List.mem_map] at hmem
          obtain ⟨v, hv, hv2⟩ := hmem
          by_cases e2 : v = old
          · exact hl.1 (e ▸ e2 ▸ hv)
          · simp only [e2, if_false] at hv2
            exact hnl (hv2 ▸ hv)
        · exact hnl h3
      · have : (a == old) = false := by simpa using e
        simp only [this] at h
        exact hna h.symm
    · by_cases e : a = old
      · simp only [e, beq_self_eq_true, if_true] at h1
        exact hnl h1
      · have : (a == old) = false := by simpa using e
        simp only [this] at h1
        exact hl.1 h1

theorem selectReviewers_small (shuffle : List String → List String) (c : List String)
    (h : c.length ≤ 2) : selectReviewers shuffle c = c := by
  unfold selectReviewers
  by_cases h0 : c.length = 0
  · have : c = [] := List.length_eq_zero.mp h0
    simp [this]
  · simp [h0, h]

theorem selectReviewers_large (shuffle : List String → List String) (c : List String)
    (h : 2 < c.length) (hs : (shuffle c).Perm c) :
    selectReviewers shuffle c = (shuffle c).take 2 := by
  unfold selectReviewers
  have h0 : ¬ c.length = 0 := by omega
  have h2 : ¬ c.length ≤ 2 := by omega
  have hlen : (shuffle c).length = c.length := hs.length_eq
  have hm : (minInt 2 ((shuffle c).length : Int)).toNat = 2 := by
    unfold minInt
    have : (2 : Int) < ((shuffle c).length : Int) := by omega
    simp [this]
  simp [h0, h2, hm]

theorem selectReviewers_sublist_perm (shuffle : List String → List String)
    (c : List String) (hs : (shuffle c).Perm c) :
    ∃ p : List String, p.Perm c ∧ (selectReviewers shuffle c).Sublist p := by
  by_cases h : c.length ≤ 2
  · exact ⟨c, List.Perm.refl c, by rw [selectReviewers_small shuffle c h]⟩
  · refine ⟨shuffle c, hs, ?_⟩
    rw [selectReviewers_large shuffle c (by omega) hs]
    exact List.take_sublist 2 _

theorem selectReviewers_length (shuffle : List String → List String) (c : List String)
    (hs : (shuffle c).Perm c) : (selectReviewers shuffle c).length = min 2 c.length := by
  by_cases h : c.length ≤ 2
  · rw [selectReviewers_small shuffle c h]; omega
  · rw [selectReviewers_large shuffle c (by omega) hs, List.length_take, hs.length_eq]

theorem selectReviewers_nodup (shuffle : List String → List String) (c : List String)
    (hc : c.Nodup) (hs : (shuffle c).Perm c) : (selectReviewers shuffle c).Nodup := by
  obtain ⟨p, hp, hsub⟩ := selectReviewers_sublist_perm shuffle c hs
  exact List.Nodup.sublist hsub (hp.nodup_iff.mpr hc)

theorem selectReviewers_mem (shuffle : List String → List String) (c : List String)
    (hs : (shuffle c).Perm c) : ∀ x ∈ selectReviewers shuffle c, x ∈ c := by
  obtain ⟨p, hp, hsub⟩ := selectReviewers_sublist_perm shuffle c hs
  intro x hx
  exact hp.mem_iff.mp (hsub.subset hx)

/-- C7: for a duplicate-free candidate list and any permutation as the outcome of the
shuffle, selectReviewers returns min(2, len) candidates, without duplicates, all of them
from the list; nothing for an empty list and the list itself when it has one or two
members. -/
theorem selectReviewers_contract (shuffle : List String → List String) (c : List String)
    (hc : c.Nodup) (hs : (shuffle c).Perm c) :
    (selectReviewers shuffle c).length = min 2 c.length ∧
    (selectReviewers shuffle c).Nodup ∧
    (∀ x ∈ selectReviewers shuffle c, x ∈ c) ∧
    (c.length = 0 → selectReviewers shuffle c = []) ∧
    (c.length = 1 ∨ c.length = 2 → selectReviewers shuffle c = c) := by
  refine ⟨selectReviewers_length shuffle c hs, selectReviewers_nodup shuffle c hc hs,
    selectReviewers_mem shuffle c hs, ?_, ?_⟩
  · intro h0
    rw [selectReviewers_small shuffle c (by omega)]
    exact List.length_eq_zero.mp h0
  · intro h12
    exact selectReviewers_small shuffle c (by omega)

/-- Run of C7 on three candidates with the reversal as shuffle. -/
theorem selectReviewers_contract_witness :
    (selectReviewers List.reverse ["u2", "u3", "u4"]).length = min 2 ["u2", "u3", "u4"].length ∧
    (selectReviewers List.reverse ["u2", "u3", "u4"]).Nodup ∧
    (∀ x ∈ selectReviewers List.reverse ["u2", "u3", "u4"], x ∈ ["u2", "u3", "u4"]) ∧
    (["u2", "u3", "u4"].length = 0 → selectReviewers List.reverse ["u2", "u3", "u4"] = []) ∧
    (["u2", "u3", "u4"].length = 1 ∨ ["u2", "u3", "u4"].length = 2 →
      selectReviewers List.reverse ["u2", "u3", "u4"] = ["u2", "u3", "u4"]) :=
  selectReviewers_contract List.reverse ["u2", "u3", "u4"] (by decide)
    (List.reverse_perm _)

/-! ## reading rows by key -/

theorem scalarSubquery_filter_map {α β : Type} (l : List α) (p : α → Bool) (f : α → β) :
    scalarSubquery ((l.filter p).map f) = (l.find? p).map f := by
  induction l with
  | nil => rfl
  | cons a l ih =>
    by_cases h : p a = true
    · simp [scalarSubquery, List.filter_cons, List.find?_cons, h]
    · have h2 : p a = false := by simpa using h
      simp [scalarSubquery, List.filter_cons, List.find?_cons, h2]

theorem find?_pr_mem {prs : List PullRequest} {prID : String} {pr : PullRequest}
    (h : prs.find? (fun p => p.PullRequestID == prID) = some pr) :
    pr ∈ prs ∧ pr.PullRequestID = prID := by
  refine ⟨List.mem_of_find?_eq_some h, ?_⟩
  have := List.find?_some h
  simpa using this

theorem find?_pr_none {prs : List PullRequest} {prID : String} :
    prs.find? (fun p => p.PullRequestID == prID) = none ↔
      ∀ p ∈ prs, p.PullRequestID ≠ prID := by
  simp [List.find?_eq_none]

theorem pr_eq_of_keyed {prs : List PullRequest} {p q : PullRequest}
    (hk : (prs.map (fun p => p.PullRequestID)).Nodup) (hp : p ∈ prs) (hq : q ∈ prs)
    (e : p.PullRequestID = q.PullRequestID) : p = q :=
  List.inj_on_of_nodup_map hk hp hq e

theorem user_eq_of_keyed {users : List User} {u v : User}
    (hk : (users.map (fun u => u.UserID)).Nodup) (hu : u ∈ users) (hv : v ∈ users)
    (e : u.UserID = v.UserID) : u = v :=
  List.inj_on_of_nodup_map hk hu hv e

theorem any_row_of_keyed {prs : List PullRequest} {prID : String} {pr : PullRequest}
    (hk : (prs.map (fun p => p.PullRequestID)).Nodup)
    (h : prs.find? (fun p => p.PullRequestID == prID) = some pr) (g : PullRequest → Bool) :
    prs.any (fun p => p.PullRequestID == prID && g p) = g pr := by
  obtain ⟨hmem, hid⟩ := find?_pr_mem h
  cases hg : g pr with
  | true =>
    rw [List.any_eq_true]
    exact ⟨pr, hmem, by simp [hid, hg]⟩
  | false =>
    rw [List.any_eq_false]
    intro p hp hcon
    simp only [Bool.and_eq_true, beq_iff_eq] at hcon
    have : p = pr := pr_eq_of_keyed hk hp hmem (hcon.1.trans hid.symm)
    rw [this, hg] at hcon
    exact Bool.false_ne_true hcon.2

/-! ## the reassignment candidates -/

theorem mem_reassignCandidates {s : Store} {oldUserID prID x : String}
    (h : x ∈ reassignCandidates s oldUserID prID) :
    ∃ u ∈ s.users, u.UserID = x ∧ u.IsActive = true ∧ u.UserID ≠ oldUserID ∧
      (∃ o, s.users.find? (fun u => u.UserID == oldUserID) = some o ∧
        u.TeamName = o.TeamName) ∧
      (∃ pr, s.pull_requests.find? (fun p => p.PullRequestID == prID) = some pr ∧
        u.UserID ≠ pr.AuthorID) ∧
      (∀ p ∈ s.pull_requests, p.PullRequestID = prID → u.UserID ∉ p.AssignedReviewers) := by
  unfold reassignCandidates at h
  simp only [scalarSubquery_filter_map] at h
  rw [List.mem_map] at h
  obtain ⟨u, hu, rfl⟩ := h
  rw [List.mem_filter] at hu
  obtain ⟨hmem, hcond⟩ := hu
  simp only [Bool.and_eq_true] at hcond
  obtain ⟨⟨⟨⟨hteam, hact⟩, hold⟩, hauth⟩, hnot⟩ := hcond
  refine ⟨u, hmem, rfl, by simpa using hact, by simpa using hold, ?_, ?_, ?_⟩
  · cases ho : s.users.find? (fun u => u.UserID == oldUserID) with
    | none => simp [ho] at hteam
    | some o =>
      refine ⟨o, rfl, ?_⟩
      simpa [ho] using hteam
  · cases hp : s.pull_requests.find? (fun p => p.PullRequestID == prID) with
    | none => simp [hp] at hauth
    | some pr =>
      refine ⟨pr, rfl, ?_⟩
      simpa [hp] using hauth
  · intro p hp hid hin
    have hany : s.pull_requests.any (fun pr =>
        pr.PullRequestID == prID && jsonbExists pr.AssignedReviewers u.UserID) = true := by
      rw [List.any_eq_true]
      exact ⟨p, hp, by simp [hid, (jsonbExists_iff_mem _ _).mpr hin]⟩
    simp [hany] at hnot

theorem reassignCandidates_eq_spec {s : Store} {oldUserID prID : String} {pr : PullRequest}
    {o : User} (hk : (s.pull_requests.map (fun p => p.PullRequestID)).Nodup)
    (hpr : s.pull_requests.find? (fun p => p.PullRequestID == prID) = some pr)
    (ho : s.users.find? (fun u => u.UserID == oldUserID) = some o) :
    reassignCandidates s oldUserID prID =
      specCandidatePool s.users o.TeamName oldUserID pr.AuthorID pr.AssignedReviewers := by
  unfold reassignCandidates specCandidatePool
  simp only [scalarSubquery_filter_map, hpr, ho, Option.map_some']
  congr 1
  apply List.filter_congr
  intro u _
  rw [any_row_of_keyed hk hpr (fun p => jsonbExists p.AssignedReviewers u.UserID)]
  cases hj : jsonbExists pr.AssignedReviewers u.UserID with
  | true =>
    have := (jsonbExists_iff_mem _ _).mp hj
    simp [this]
  | false =>
    have : u.UserID ∉ pr.AssignedReviewers := by
      intro hin
      rw [(jsonbExists_iff_mem _ _).mpr hin] at hj
      exact Bool.noConfusion hj
    by_cases h1 : u.IsActive = true <;> by_cases h2 : u.TeamName = o.TeamName <;>
      by_cases h3 : u.UserID = oldUserID <;> by_cases h4 : u.UserID = pr.AuthorID <;>
      simp [h1, h2, h3, h4, this]

theorem reassignReviewerInTx_eq (s : Store) (prID oldUserID : String) :
    reassignReviewerInTx s prID oldUserID = ReassignReviewer s prID oldUserID := rfl

/-! ## ReassignReviewer -/

/-- C3, as stated, fails: u4 is no reviewer of the MERGED pull request pr2, and the call
answers PRMerged; u4 is no reviewer of the absent pr9, and the call answers NotFound. -/
theorem reassign_not_assigned_counterexample :
    (∀ p ∈ exampleStore.pull_requests, "u4" ∉ p.AssignedReviewers) ∧
    (ReassignReviewer exampleStore "pr2" "u4").1 = .error .ErrPRMerged ∧
    (ReassignReviewer exampleStore "pr9" "u4").1 = .error .ErrNotFound ∧
    (ReassignReviewer exampleStore "pr2" "u4").1 ≠ .error .ErrNotAssigned ∧
    (ReassignReviewer exampleStore "pr9" "u4").1 ≠ .error .ErrNotAssigned := by
  decide

/-- C3, amended: when the pull request exists and is not MERGED, reassigning a user who
is not in its reviewer set fails with NotAssigned and leaves the store as it was,
whatever the users table and the other pull requests hold. -/
theorem reassign_not_assigned (s : Store) (prID oldUserID : String) (pr : PullRequest)
    (hpr : s.pull_requests.find? (fun p => p.PullRequestID == prID) = some pr)
    (hst : pr.Status ≠ "MERGED") (hmem : oldUserID ∉ pr.AssignedReviewers) :
    ReassignReviewer s prID oldUserID = (.error .ErrNotAssigned, s) := by
  have hc : contains pr.AssignedReviewers oldUserID = false :=
    contains_eq_false_of_not_mem hmem
  simp [ReassignReviewer, hpr, hst, hc]

/-- Run of the amended C3 on the OPEN pull request pr1 and the non-reviewer u3. -/
theorem reassign_not_assigned_witness :
    ReassignReviewer exampleStore "pr1" "u3" = (.error .ErrNotAssigned, exampleStore) :=
  reassign_not_assigned exampleStore "pr1" "u3"
    { PullRequestID := "pr1", PullRequestName := "one", AuthorID := "u1",
      Status := "OPEN", AssignedReviewers := ["u2"], CreatedAt := 1, MergedAt := none }
    (by decide) (by decide) (by decide)

theorem reassign_result_cases (s : Store) (prID oldUserID : String) :
    (s.pull_requests.find? (fun p => p.PullRequestID == prID) = none ∧
      ReassignReviewer s prID oldUserID = (.error .ErrNotFound, s)) ∨
    (∃ pr, s.pull_requests.find? (fun p => p.PullRequestID == prID) = some pr ∧
      pr.Status = "MERGED" ∧ ReassignReviewer s prID oldUserID = (.error .ErrPRMerged, s)) ∨
    (∃ pr, s.pull_requests.find? (fun p => p.PullRequestID == prID) = some pr ∧
      pr.Status ≠ "MERGED" ∧ oldUserID ∉ pr.AssignedReviewers ∧
      ReassignReviewer s prID oldUserID = (.error .ErrNotAssigned, s)) ∨
    (∃ pr, s.pull_requests.find? (fun p => p.PullRequestID == prID) = some pr ∧
      pr.Status ≠ "MERGED" ∧ oldUserID ∈ pr.AssignedReviewers ∧
      reassignCandidates s oldUserID prID = [] ∧
      ReassignReviewer s prID oldUserID = (.error .ErrNoCandidate, s)) ∨
    (∃ pr c rest, s.pull_requests.find? (fun p => p.PullRequestID == prID) = some pr ∧
      pr.Status ≠ "MERGED" ∧ oldUserID ∈ pr.AssignedReviewers ∧
      reassignCandidates s oldUserID prID = c :: rest ∧
      ReassignReviewer s prID oldUserID =
        (.ok ({ pr with AssignedReviewers := replaceInSlice pr.AssignedReviewers oldUserID c },
          c), updateReviewers s prID (replaceInSlice pr.AssignedReviewers oldUserID c))) := by
  cases hpr : s.pull_requests.find? (fun p => p.PullRequestID == prID) with
  | none => left; simp [ReassignReviewer, hpr]
  | some pr =>
    right
    by_cases hst : pr.Status = "MERGED"
    · left; exact ⟨pr, rfl, hst, by simp [ReassignReviewer, hpr, hst]⟩
    · right
      by_cases hmem : oldUserID ∈ pr.AssignedReviewers
      · right
        have hc : contains pr.AssignedReviewers oldUserID = true :=
          (contains_iff_mem _ _).mpr hmem
        cases hcand : reassignCandidates s oldUserID prID with
        | nil =>
          left
          exact ⟨pr, rfl, hst, hmem, rfl, by simp [ReassignReviewer, hpr, hst, hc, hcand]⟩
        | cons c rest =>
          right
          exact ⟨pr, c, rest, rfl, hst, hmem, rfl,
            by simp [ReassignReviewer, hpr, hst, hc, hcand]⟩
      · left
        have hc : contains pr.AssignedReviewers oldUserID = false :=
          contains_eq_false_of_not_mem hmem
        exact ⟨pr, rfl, hst, hmem, by simp [ReassignReviewer, hpr, hst, hc]⟩

theorem reassign_chain_aux (s : Store) (prID oldUserID : String) :
    ((ReassignReviewer s prID oldUserID).1 = .error .ErrNotFound ↔
      ∀ p ∈ s.pull_requests, p.PullRequestID ≠ prID) ∧
    ((ReassignReviewer s prID oldUserID).1 = .error .ErrPRMerged ↔
      ∃ pr, s.pull_requests.find? (fun p => p.PullRequestID == prID) = some pr ∧
        pr.Status = "MERGED") ∧
    ((ReassignReviewer s prID oldUserID).1 = .error .ErrNotAssigned ↔
      ∃ pr, s.pull_requests.find? (fun p => p.PullRequestID == prID) = some pr ∧
        pr.Status ≠ "MERGED" ∧ oldUserID ∉ pr.AssignedReviewers) := by
  rw [← find?_pr_none]
  rcases reassign_result_cases s prID oldUserID with
    ⟨hpr, hres⟩ | ⟨pr, hpr, hst, hres⟩ | ⟨pr, hpr, hst, hmem, hres⟩ |
    ⟨pr, hpr, hst, hmem, _, hres⟩ | ⟨pr, c, rest, hpr, hst, hmem, _, hres⟩
  · rw [hres, hpr]; simp
  · rw [hres, hpr]; simp [hst]
  · rw [hres, hpr]; simp [hst, hmem]
  · rw [hres, hpr]; simp [hst, hmem]
  · rw [hres, hpr]; simp [hst, hmem]

/-- C4: ReassignReviewer fails with NotFound exactly when no pull request has the id,
with PRMerged exactly when the pull request exists and is MERGED, with NotAssigned
exactly when it exists, is not MERGED and the old user is not among its reviewers; and
whether it fails with one of the three is the same for every users table, the table the
candidate pool is drawn from. -/
theorem reassign_precondition_chain (s : Store) (prID oldUserID : String) :
    ((ReassignReviewer s prID oldUserID).1 = .error .ErrNotFound ↔
      ∀ p ∈ s.pull_requests, p.PullRequestID ≠ prID) ∧
    ((ReassignReviewer s prID oldUserID).1 = .error .ErrPRMerged ↔
      ∃ pr, s.pull_requests.find? (fun p => p.PullRequestID == prID) = some pr ∧
        pr.Status = "MERGED") ∧
    ((ReassignReviewer s prID oldUserID).1 = .error .ErrNotAssigned ↔
      ∃ pr, s.pull_requests.find? (fun p => p.PullRequestID == prID) = some pr ∧
        pr.Status ≠ "MERGED" ∧ oldUserID ∉ pr.AssignedReviewers) ∧
    (∀ users : List User, ∀ e ∈ [Error.ErrNotFound, Error.ErrPRMerged, Error.ErrNotAssigned],
      ((ReassignReviewer { s with users := users } prID oldUserID).1 = .error e ↔
        (ReassignReviewer s prID oldUserID).1 = .error e)) := by
  obtain ⟨h1, h2, h3⟩ := reassign_chain_aux s prID oldUserID
  refine ⟨h1, h2, h3, ?_⟩
  intro users e he
  obtain ⟨g1, g2, g3⟩ := reassign_chain_aux { s with users := users } prID oldUserID
  simp only [List.mem_cons, List.mem_singleton, List.not_mem_nil, or_false] at he
  rcases he with rfl | rfl | rfl
  · rw [g1, h1]
  · rw [g2, h2]
  · rw [g3, h3]

/-- C5: when the pull request exists and is OPEN, the old user is among its reviewers
and the candidate pool, in the words of the specification, starts with `c`,
ReassignReviewer succeeds and reports `c`; the returned pull request is the old one with
the reviewer list substituted, the stored table differs from the old one in that row
alone, which is now the returned pull request, and the users table is the old one.  The
new reviewer list has the old length, holds `c` wherever the old one held the old user
and the old member everywhere else. -/
theorem reassign_success (s : Store) (prID oldUserID : String) (pr : PullRequest)
    (o : User) (c : String) (rest : List String) (hk : s.Keyed)
    (hpr : s.pull_requests.find? (fun p => p.PullRequestID == prID) = some pr)
    (hopen : pr.Status = "OPEN") (hmem : oldUserID ∈ pr.AssignedReviewers)
    (ho : s.users.find? (fun u => u.UserID == oldUserID) = some o)
    (hpool : specCandidatePool s.users o.TeamName oldUserID pr.AuthorID
      pr.AssignedReviewers = c :: rest) :
    ReassignReviewer s prID oldUserID =
      (.ok ({ pr with AssignedReviewers := replaceInSlice pr.AssignedReviewers oldUserID c },
          c),
        { users := s.users,
          pull_requests := s.pull_requests.map (fun p => if p = pr then
            { pr with AssignedReviewers := replaceInSlice pr.AssignedReviewers oldUserID c }
            else p) }) ∧
    (replaceInSlice pr.AssignedReviewers oldUserID c).length = pr.AssignedReviewers.length ∧
    (∀ i : Nat, (replaceInSlice pr.AssignedReviewers oldUserID c)[i]? =
      (pr.AssignedReviewers[i]?).map (fun v => if v = oldUserID then c else v)) ∧
    c ∈ replaceInSlice pr.AssignedReviewers oldUserID c ∧
    oldUserID ∉ replaceInSlice pr.AssignedReviewers oldUserID c := by
  have hst : pr.Status ≠ "MERGED" := by rw [hopen]; decide
  have hc : contains pr.AssignedReviewers oldUserID = true := (contains_iff_mem _ _).mpr hmem
  have hcand : reassignCandidates s oldUserID prID = c :: rest := by
    rw [reassignCandidates_eq_spec hk.2 hpr ho, hpool]
  obtain ⟨hprmem, hprid⟩ := find?_pr_mem hpr
  have hcold : c ≠ oldUserID := by
    have hcm : c ∈ reassignCandidates s oldUserID prID := by rw [hcand]; exact List.mem_cons_self _ _
    obtain ⟨u, _, hu, _, hne, _⟩ := mem_reassignCandidates hcm
    exact hu ▸ hne
  refine ⟨?_, replaceInSlice_length _ _ _, ?_, ?_, ?_⟩
  · have hmap : s.pull_requests.map (fun p => if p.PullRequestID == prID then
          { p with AssignedReviewers := replaceInSlice pr.AssignedReviewers oldUserID c }
          else p) =
        s.pull_requests.map (fun p => if p = pr then
          { pr with AssignedReviewers := replaceInSlice pr.AssignedReviewers oldUserID c }
          else p) := by
      apply List.map_congr_left
      intro p hp
      by_cases e : p.PullRequestID = prID
      · have hpp : p = pr := pr_eq_of_keyed hk.2 hp hprmem (e.trans hprid.symm)
        simp [hpp, hprid]
      · have hne : p ≠ pr := fun h => e (h ▸ hprid)
        simp [e, hne]
    have hres : ReassignReviewer s prID oldUserID =
        (.ok ({ pr with
            AssignedReviewers := replaceInSlice pr.AssignedReviewers oldUserID c }, c),
          updateReviewers s prID (replaceInSlice pr.AssignedReviewers oldUserID c)) := by
      simp [ReassignReviewer, hpr, hst, hc, hcand]
    rw [hres]
    unfold updateReviewers
    rw [hmap]
  · intro i
    rw [replaceInSlice_eq_map, List.getElem?_map]
  · rw [replaceInSlice_eq_map, List.mem_map]
    exact ⟨oldUserID, hmem, by simp⟩
  · intro hin
    rcases mem_replaceInSlice hin with h | ⟨_, h⟩
    · exact hcold h.symm
    · exact h rfl

/-- Run of C5: reassigning u2 on pr1 of the example store picks u3. -/
theorem reassign_success_witness :
    ReassignReviewer exampleStore "pr1" "u2" =
      (.ok ({ PullRequestID := "pr1", PullRequestName := "one", AuthorID := "u1",
              Status := "OPEN", AssignedReviewers := ["u3"], CreatedAt := 1,
              MergedAt := none }, "u3"),
        { users := exampleStore.users,
          pull_requests := [
            { PullRequestID := "pr1", PullRequestName := "one", AuthorID := "u1",
              Status := "OPEN", AssignedReviewers := ["u3"], CreatedAt := 1,
              MergedAt := none },
            { PullRequestID := "pr2", PullRequestName := "two", AuthorID := "u1",
              Status := "MERGED", AssignedReviewers := ["u2", "u3"], CreatedAt := 2,
              MergedAt := some 3 },
            { PullRequestID := "pr3", PullRequestName := "three", AuthorID := "u1",
              Status := "OPEN", AssignedReviewers := ["u2", "u3"], CreatedAt := 4,
              MergedAt := none }] }) :=
  (reassign_success exampleStore "pr1" "u2"
    { PullRequestID := "pr1", PullRequestName := "one", AuthorID := "u1",
      Status := "OPEN", AssignedReviewers := ["u2"], CreatedAt := 1, MergedAt := none }
    ⟨"u2", "Bob", "core", true⟩ "u3" [] (by decide) (by decide) (by decide) (by decide)
    (by decide) (by decide)).1

/-- C6: when the pull request exists and is OPEN, the old user is among its reviewers,
and every user on the old user's team is inactive, the old user, the author or already a
reviewer of it, ReassignReviewer fails with NoCandidate and the store is as it was. -/
theorem reassign_no_candidate (s : Store) (prID oldUserID : String) (pr : PullRequest)
    (hpr : s.pull_requests.find? (fun p => p.PullRequestID == prID) = some pr)
    (hopen : pr.Status = "OPEN") (hmem : oldUserID ∈ pr.AssignedReviewers)
    (hall : ∀ o ∈ s.users, o.UserID = oldUserID → ∀ u ∈ s.users,
      u.TeamName = o.TeamName →
        (u.IsActive = false ∨ u.UserID = oldUserID ∨ u.UserID = pr.AuthorID ∨
          u.UserID ∈ pr.AssignedReviewers)) :
    ReassignReviewer s prID oldUserID = (.error .ErrNoCandidate, s) := by
  have hst : pr.Status ≠ "MERGED" := by rw [hopen]; decide
  have hc : contains pr.AssignedReviewers oldUserID = true := (contains_iff_mem _ _).mpr hmem
  obtain ⟨hprmem, hprid⟩ := find?_pr_mem hpr
  have hcand : reassignCandidates s oldUserID prID = [] := by
    rw [List.eq_nil_iff_forall_not_mem]
    intro x hx
    obtain ⟨u, hu, _, hact, hne, ⟨o, ho, hteam⟩, ⟨pr2, hpr2, hauth⟩, hnot⟩ :=
      mem_reassignCandidates hx
    have hoid : o.UserID = oldUserID := by simpa using List.find?_some ho
    rw [hpr] at hpr2
    cases hpr2
    rcases hall o (List.mem_of_find?_eq_some ho) hoid u hu hteam with h | h | h | h
    · rw [hact] at h; exact Bool.noConfusion h
    · exact hne h
    · exact hauth h
    · exact hnot pr hprmem hprid h
  simp [ReassignReviewer, hpr, hst, hc, hcand]

/-- Run of C6: on pr3 of the example store u2 and u3 are both reviewers, u1 is the
author and u4 is inactive. -/
theorem reassign_no_candidate_witness :
    ReassignReviewer exampleStore "pr3" "u2" = (.error .ErrNoCandidate, exampleStore) :=
  reassign_no_candidate exampleStore "pr3" "u2"
    { PullRequestID := "pr3", PullRequestName := "three", AuthorID := "u1",
      Status := "OPEN", AssignedReviewers := ["u2", "u3"], CreatedAt := 4,
      MergedAt := none }
    (by decide) (by decide) (by decide) (by decide)

/-! ## CreatePR -/

theorem createPRCandidates_nodup (s : Store) (authorTeam authorID : String)
    (hk : (s.users.map (fun u => u.UserID)).Nodup) :
    (createPRCandidates s authorTeam authorID).Nodup := by
  unfold createPRCandidates
  exact List.Nodup.sublist ((List.filter_sublist _).map _) hk

theorem mem_createPRCandidates {s : Store} {authorTeam authorID x : String}
    (h : x ∈ createPRCandidates s authorTeam authorID) :
    ∃ u ∈ s.users, u.UserID = x ∧ u.IsActive = true ∧ u.TeamName = authorTeam ∧
      u.UserID ≠ authorID := by
  unfold createPRCandidates at h
  rw [List.mem_map] at h
  obtain ⟨u, hu, rfl⟩ := h
  rw [List.mem_filter] at hu
  obtain ⟨hmem, hcond⟩ := hu
  simp only [Bool.and_eq_true, beq_iff_eq, bne_iff_ne, ne_eq] at hcond
  exact ⟨u, hmem, rfl, hcond.1.2, hcond.1.1, hcond.2⟩

theorem createPRCandidates_length (s : Store) (authorTeam authorID : String) :
    (createPRCandidates s authorTeam authorID).length =
      (s.users.filter (fun u => decide (u.IsActive = true ∧ u.TeamName = authorTeam ∧
        u.UserID ≠ authorID))).length := by
  unfold createPRCandidates
  rw [List.length_map]
  congr 1
  apply List.filter_congr
  intro u _
  by_cases h1 : u.IsActive = true <;> by_cases h2 : u.TeamName = authorTeam <;>
    by_cases h3 : u.UserID = authorID <;> simp [h1, h2, h3]

theorem createPR_eq_of_author {s : Store} {prID authorID : String} {author : User}
    (shuffle : List String → List String) (now : Nat) (prName : String)
    (hfree : ∀ p ∈ s.pull_requests, p.PullRequestID ≠ prID)
    (hauthor : s.users.find? (fun u => u.UserID == authorID) = some author) :
    CreatePR shuffle now s prID prName authorID =
      (.ok { PullRequestID := prID, PullRequestName := prName, AuthorID := authorID,
             Status := "OPEN",
             AssignedReviewers :=
               selectReviewers shuffle (createPRCandidates s author.TeamName authorID),
             CreatedAt := now, MergedAt := none },
        { users := s.users,
          pull_requests := s.pull_requests ++
            [{ PullRequestID := prID, PullRequestName := prName, AuthorID := authorID,
               Status := "OPEN",
               AssignedReviewers :=
                 selectReviewers shuffle (createPRCandidates s author.TeamName authorID),
               CreatedAt := now, MergedAt := none }] }) := by
  have hany : s.pull_requests.any (fun p => p.PullRequestID == prID) = false := by
    rw [List.any_eq_false]
    intro p hp
    simpa using hfree p hp
  simp [CreatePR, hany, hauthor]

theorem createPR_of_taken (shuffle : List String → List String) (now : Nat) (s : Store)
    (prID prName authorID : String) (hex : ∃ p ∈ s.pull_requests, p.PullRequestID = prID) :
    CreatePR shuffle now s prID prName authorID = (.error .ErrPRExists, s) := by
  obtain ⟨p, hp, hid⟩ := hex
  have hany : s.pull_requests.any (fun p => p.PullRequestID == prID) = true := by
    rw [List.any_eq_true]
    exact ⟨p, hp, by simp [hid]⟩
  simp [CreatePR, hany]

theorem createPR_of_no_author (shuffle : List String → List String) (now : Nat) (s : Store)
    (prID prName authorID : String) (hfree : ∀ p ∈ s.pull_requests, p.PullRequestID ≠ prID)
    (hno : ∀ u ∈ s.users, u.UserID ≠ authorID) :
    CreatePR shuffle now s prID prName authorID = (.error .ErrNotFound, s) := by
  have hany : s.pull_requests.any (fun p => p.PullRequestID == prID) = false := by
    rw [List.any_eq_false]
    intro p hp
    simpa using hfree p hp
  have hfind : s.users.find? (fun u => u.UserID == authorID) = none := by
    rw [List.find?_eq_none]
    intro u hu
    simpa using hno u hu
  simp [CreatePR, hany, hfind]

/-- C8: when no pull request has the id and the author exists, CreatePR succeeds; the
pull request returned is the row appended to the table, it is OPEN with no merge time
and the given author, and its reviewers are min(2, k) distinct ids of active users of the
author's team other than the author, k being the number of such users (none when
k = 0). -/
theorem createPR_success (shuffle : List String → List String) (now : Nat) (s : Store)
    (prID prName authorID : String) (author : User) (hk : s.Keyed)
    (hfree : ∀ p ∈ s.pull_requests, p.PullRequestID ≠ prID)
    (hauthor : s.users.find? (fun u => u.UserID == authorID) = some author)
    (hs : (shuffle (createPRCandidates s author.TeamName authorID)).Perm
      (createPRCandidates s author.TeamName authorID)) :
    ∃ reviewers : List String,
      CreatePR shuffle now s prID prName authorID =
        (.ok { PullRequestID := prID, PullRequestName := prName, AuthorID := authorID,
               Status := "OPEN", AssignedReviewers := reviewers, CreatedAt := now,
               MergedAt := none },
          { users := s.users,
            pull_requests := s.pull_requests ++
              [{ PullRequestID := prID, PullRequestName := prName, AuthorID := authorID,
                 Status := "OPEN", AssignedReviewers := reviewers, CreatedAt := now,
                 MergedAt := none }] }) ∧
      reviewers.length = min 2 (s.users.filter (fun u => decide (u.IsActive = true ∧
        u.TeamName = author.TeamName ∧ u.UserID ≠ authorID))).length ∧
      reviewers.Nodup ∧
      (∀ r ∈ reviewers, ∃ u ∈ s.users, u.UserID = r ∧ u.IsActive = true ∧
        u.TeamName = author.TeamName ∧ u.UserID ≠ authorID) ∧
      ((s.users.filter (fun u => decide (u.IsActive = true ∧
        u.TeamName = author.TeamName ∧ u.UserID ≠ authorID))).length = 0 →
          reviewers = []) := by
  have hlen := selectReviewers_length shuffle _ hs
  rw [createPRCandidates_length] at hlen
  refine ⟨selectReviewers shuffle (createPRCandidates s author.TeamName authorID),
    createPR_eq_of_author shuffle now prName hfree hauthor, hlen,
    selectReviewers_nodup shuffle _ (createPRCandidates_nodup s _ _ hk.1) hs, ?_, ?_⟩
  · intro r hr
    exact mem_createPRCandidates (selectReviewers_mem shuffle _ hs r hr)
  · intro h0
    rw [h0] at hlen
    exact List.length_eq_zero.mp (by simpa using hlen)

/-- Run of C8: a pull request by u1 of team core, the shuffle being the reversal, gets
the reviewers u4 and u3. -/
theorem createPR_success_witness :
    ∃ reviewers : List String,
      CreatePR List.reverse 7 teamsStore "pr1" "one" "u1" =
        (.ok { PullRequestID := "pr1", PullRequestName := "one", AuthorID := "u1",
               Status := "OPEN", AssignedReviewers := reviewers, CreatedAt := 7,
               MergedAt := none },
          { users := teamsStore.users,
            pull_requests := teamsStore.pull_requests ++
              [{ PullRequestID := "pr1", PullRequestName := "one", AuthorID := "u1",
                 Status := "OPEN", AssignedReviewers := reviewers, CreatedAt := 7,
                 MergedAt := none }] }) ∧
      reviewers.length = min 2 (teamsStore.users.filter (fun u => decide (u.IsActive = true ∧
        u.TeamName = "core" ∧ u.UserID ≠ "u1"))).length ∧
      reviewers.Nodup ∧
      (∀ r ∈ reviewers, ∃ u ∈ teamsStore.users, u.UserID = r ∧ u.IsActive = true ∧
        u.TeamName = "core" ∧ u.UserID ≠ "u1") ∧
      ((teamsStore.users.filter (fun u => decide (u.IsActive = true ∧
        u.TeamName = "core" ∧ u.UserID ≠ "u1"))).length = 0 → reviewers = []) :=
  createPR_success List.reverse 7 teamsStore "pr1" "one" "u1" ⟨"u1", "Ann", "core", true⟩
    (by decide) (by decide) (by decide) (List.reverse_perm _)

/-- C9: CreatePR fails with PRExists when a pull request with the id exists, whether or
not the author exists, and with NotFound when the id is free and no user has the author
id; in both cases the store is as it was. -/
theorem createPR_failure (shuffle : List String → List String) (now : Nat) (s : Store)
    (prID prName authorID : String) :
    ((∃ p ∈ s.pull_requests, p.PullRequestID = prID) →
      CreatePR shuffle now s prID prName authorID = (.error .ErrPRExists, s)) ∧
    ((∀ p ∈ s.pull_requests, p.PullRequestID ≠ prID) →
      (∀ u ∈ s.users, u.UserID ≠ authorID) →
      CreatePR shuffle now s prID prName authorID = (.error .ErrNotFound, s)) :=
  ⟨createPR_of_taken shuffle now s prID prName authorID,
   createPR_of_no_author shuffle now s prID prName authorID⟩

/-- Run of C9 on the example store: the taken id pr1 with the unknown author u9, and the
free id pr9 with the unknown author u9. -/
theorem createPR_failure_witness :
    CreatePR List.reverse 7 exampleStore "pr1" "again" "u9" = (.error .ErrPRExists, exampleStore) ∧
    CreatePR List.reverse 7 exampleStore "pr9" "new" "u9" = (.error .ErrNotFound, exampleStore) :=
  ⟨(createPR_failure List.reverse 7 exampleStore "pr1" "again" "u9").1 (by decide),
   (createPR_failure List.reverse 7 exampleStore "pr9" "new" "u9").2 (by decide) (by decide)⟩

/-! ## MergePR -/

theorem mergeRow_id (now : Nat) (p : PullRequest) :
    (mergeRow now p).PullRequestID = p.PullRequestID := rfl

theorem mergeRow_mergeRow (now1 now2 : Nat) (p : PullRequest) :
    mergeRow now2 (mergeRow now1 p) = mergeRow now1 p := by
  simp [mergeRow]

theorem merge_map_map (now1 now2 : Nat) (prID : String) (prs : List PullRequest) :
    (prs.map (fun p => if p.PullRequestID == prID then mergeRow now1 p else p)).map
        (fun p => if p.PullRequestID == prID then mergeRow now2 p else p) =
      prs.map (fun p => if p.PullRequestID == prID then mergeRow now1 p else p) := by
  rw [List.map_map]
  apply List.map_congr_left
  intro p _
  by_cases h : p.PullRequestID = prID
  · simp [h, mergeRow_id, mergeRow_mergeRow]
  · simp [h]

theorem mergePR_snd (now : Nat) (s : Store) (prID : String) :
    (MergePR now s prID).2 =
      { users := s.users,
        pull_requests := s.pull_requests.map
          (fun p => if p.PullRequestID == prID then mergeRow now p else p) } := by
  unfold MergePR
  simp only []
  cases (s.pull_requests.map
    (fun p => if p.PullRequestID == prID then mergeRow now p else p)).find?
    (fun p => p.PullRequestID == prID) <;> rfl

theorem mergePR_second (now1 now2 : Nat) (s : Store) (prID : String) :
    MergePR now2 (MergePR now1 s prID).2 prID = MergePR now1 s prID := by
  rw [mergePR_snd]
  unfold MergePR
  simp only [merge_map_map]

/-- C10: on a store that holds the pull request, two MergePR calls in succession return
the same pull request, with status MERGED and a merge time, and the second call leaves
the store as the first call left it. -/
theorem mergePR_idempotent (now1 now2 : Nat) (s : Store) (prID : String)
    (hex : ∃ p ∈ s.pull_requests, p.PullRequestID = prID) :
    ∃ pr : PullRequest,
      (MergePR now1 s prID).1 = .ok pr ∧
      (MergePR now2 (MergePR now1 s prID).2 prID).1 = .ok pr ∧
      pr.Status = "MERGED" ∧ pr.MergedAt ≠ none ∧
      (MergePR now2 (MergePR now1 s prID).2 prID).2 = (MergePR now1 s prID).2 := by
  rw [mergePR_second]
  obtain ⟨p, hp, hid⟩ := hex
  cases hf : (s.pull_requests.map
      (fun p => if p.PullRequestID == prID then mergeRow now1 p else p)).find?
      (fun p => p.PullRequestID == prID) with
  | none =>
    rw [List.find?_eq_none] at hf
    have := hf (mergeRow now1 p) (by
      rw [List.mem_map]
      exact ⟨p, hp, by simp [hid]⟩)
    simp [mergeRow_id, hid] at this
  | some pr =>
    refine ⟨pr, by simp only [MergePR, hf], by simp only [MergePR, hf], ?_, ?_, rfl⟩
    all_goals
      have hprid : pr.PullRequestID = prID := by simpa using List.find?_some hf
      have hmem := List.mem_of_find?_eq_some hf
      rw [List.mem_map] at hmem
      obtain ⟨q, _, hq⟩ := hmem
      by_cases e : q.PullRequestID = prID
      · simp only [e, beq_self_eq_true, if_true] at hq
        rw [← hq]
        simp [mergeRow]
      · have e2 : (q.PullRequestID == prID) = false := by simpa using e
        simp only [e2, Bool.false_eq_true, if_false] at hq
        exact absurd (by rw [hq]; exact hprid) e

/-- Run of C10: merging pr1 of the example store at time 9 and again at time 12. -/
theorem mergePR_idempotent_witness :
    ∃ pr : PullRequest,
      (MergePR 9 exampleStore "pr1").1 = .ok pr ∧
      (MergePR 12 (MergePR 9 exampleStore "pr1").2 "pr1").1 = .ok pr ∧
      pr.Status = "MERGED" ∧ pr.MergedAt ≠ none ∧
      (MergePR 12 (MergePR 9 exampleStore "pr1").2 "pr1").2 = (MergePR 9 exampleStore "pr1").2 :=
  mergePR_idempotent 9 12 exampleStore "pr1" (by decide)

/-! ## the invariant of the reachable stores -/

theorem map_key_eq {α κ : Type} (key : α → κ) (f : α → α) (l : List α)
    (h : ∀ x ∈ l, key (f x) = key x) : (l.map f).map key = l.map key := by
  rw [List.map_map]
  apply List.map_congr_left
  intro x hx
  exact h x hx

theorem upsertUser_keyed (users : List User) (u : User)
    (hk : (users.map (fun u => u.UserID)).Nodup) :
    ((upsertUser users u).map (fun u => u.UserID)).Nodup := by
  unfold upsertUser
  cases hany : users.any (fun r => r.UserID == u.UserID) with
  | true =>
    simp only [if_true]
    rw [map_key_eq (fun u => u.UserID) _ users]
    · exact hk
    · intro x _
      by_cases e : x.UserID = u.UserID
      · simp [e]
      · simp [e]
  | false =>
    simp only [Bool.false_eq_true, if_false]
    rw [List.map_append, List.nodup_append]
    refine ⟨hk, by simp, ?_⟩
    intro a ha hb
    rw [List.any_eq_false] at hany
    rw [List.mem_map] at ha
    obtain ⟨r, hr, hra⟩ := ha
    simp only [List.map_cons, List.map_nil, List.mem_singleton] at hb
    exact hany r hr (by simp [hra, hb])

theorem foldl_upsert_keyed (team : String) (members : List TeamMember) :
    ∀ users : List User, (users.map (fun u => u.UserID)).Nodup →
      ((members.foldl (fun us m => upsertUser us ⟨m.UserID, m.Username, team, m.IsActive⟩)
        users).map (fun u => u.UserID)).Nodup := by
  induction members with
  | nil => intro users hk; exact hk
  | cons m rest ih =>
    intro users hk
    exact ih _ (upsertUser_keyed users _ hk)

theorem createTeam_inv (s : Store) (t : Team) (h : s.Inv) : (CreateTeam s t).2.Inv := by
  unfold CreateTeam
  by_cases hc : (s.users.filter (fun u => u.TeamName == t.TeamName)).length > 0
  · simp only [hc, if_true]; exact h
  · simp only [hc, if_false]
    exact ⟨⟨foldl_upsert_keyed _ _ _ h.1.1, h.1.2⟩, h.2⟩

theorem setActive_keyed (users : List User) (userID : String) (b : Bool)
    (hk : (users.map (fun u => u.UserID)).Nodup) :
    ((users.map (fun u => if u.UserID == userID then { u with IsActive := b } else u)).map
      (fun u => u.UserID)).Nodup := by
  rw [map_key_eq (fun u => u.UserID) _ users]
  · exact hk
  · intro x _
    by_cases e : x.UserID = userID <;> simp [e]

theorem setUserActive_snd (s : Store) (userID : String) (isActive : Bool) :
    (SetUserActive s userID isActive).2 =
      { users := s.users.map
          (fun u => if u.UserID == userID then { u with IsActive := isActive } else u),
        pull_requests := s.pull_requests } := by
  unfold SetUserActive
  simp only []
  cases (s.users.map
    (fun u => if u.UserID == userID then { u with IsActive := isActive } else u)).find?
    (fun u => u.UserID == userID) <;> rfl

theorem setUserActive_inv (s : Store) (userID : String) (isActive : Bool) (h : s.Inv) :
    (SetUserActive s userID isActive).2.Inv := by
  rw [setUserActive_snd]
  exact ⟨⟨setActive_keyed _ _ _ h.1.1, h.1.2⟩, h.2⟩

theorem createPR_inv (shuffle : List String → List String) (now : Nat) (s : Store)
    (prID prName authorID : String) (hs : ∀ c, (shuffle c).Perm c) (h : s.Inv) :
    (CreatePR shuffle now s prID prName authorID).2.Inv := by
  by_cases hex : ∃ p ∈ s.pull_requests, p.PullRequestID = prID
  · rw [createPR_of_taken shuffle now s prID prName authorID hex]; exact h
  · have hfree : ∀ p ∈ s.pull_requests, p.PullRequestID ≠ prID := by
      intro p hp e; exact hex ⟨p, hp, e⟩
    cases hauthor : s.users.find? (fun u => u.UserID == authorID) with
    | none =>
      have hno : ∀ u ∈ s.users, u.UserID ≠ authorID := by
        rw [List.find?_eq_none] at hauthor
        intro u hu
        simpa using hauthor u hu
      rw [createPR_of_no_author shuffle now s prID prName authorID hfree hno]; exact h
    | some author =>
      rw [createPR_eq_of_author shuffle now prName hfree hauthor]
      refine ⟨⟨h.1.1, ?_⟩, ?_⟩
      · simp only [List.map_append, List.map_cons, List.map_nil]
        rw [List.nodup_append]
        refine ⟨h.1.2, by simp, ?_⟩
        intro a ha hb
        rw [List.mem_map] at ha
        obtain ⟨r, hr, hra⟩ := ha
        simp only [List.mem_singleton] at hb
        exact hfree r hr (hra.trans hb)
      · intro pr hpr
        simp only [List.mem_append, List.mem_singleton] at hpr
        rcases hpr with hpr | rfl
        · exact h.2 pr hpr
        · have hperm := hs (createPRCandidates s author.TeamName authorID)
          refine ⟨selectReviewers_nodup shuffle _ (createPRCandidates_nodup s _ _ h.1.1) hperm,
            ?_, ?_⟩
          · intro hin
            obtain ⟨u, _, hu, _, _, hne⟩ :=
              mem_createPRCandidates (selectReviewers_mem shuffle _ hperm _ hin)
            exact hne hu
          · have := selectReviewers_length shuffle _ hperm
            simp only at this ⊢
            omega

theorem mergePR_inv (now : Nat) (s : Store) (prID : String) (h : s.Inv) :
    (MergePR now s prID).2.Inv := by
  rw [mergePR_snd]
  refine ⟨⟨h.1.1, ?_⟩, ?_⟩
  · simp only
    rw [map_key_eq (fun p => p.PullRequestID) _ s.pull_requests]
    · exact h.1.2
    · intro x _
      by_cases e : x.PullRequestID = prID <;> simp [e, mergeRow_id]
  · intro pr hpr
    simp only [List.mem_map] at hpr
    obtain ⟨q, hq, rfl⟩ := hpr
    by_cases e : q.PullRequestID = prID
    · simpa [e, mergeRow] using h.2 q hq
    · simpa [e] using h.2 q hq

theorem reassignReviewer_inv (s : Store) (prID oldUserID : String) (h : s.Inv) :
    (ReassignReviewer s prID oldUserID).2.Inv := by
  rcases reassign_result_cases s prID oldUserID with
    ⟨_, hres⟩ | ⟨_, _, _, hres⟩ | ⟨_, _, _, _, hres⟩ |
    ⟨_, _, _, _, _, hres⟩ | ⟨pr, c, rest, hpr, hst, hmem, hcand, hres⟩
  · rw [hres]; exact h
  · rw [hres]; exact h
  · rw [hres]; exact h
  · rw [hres]; exact h
  · rw [hres]
    obtain ⟨hprmem, hprid⟩ := find?_pr_mem hpr
    have hcm : c ∈ reassignCandidates s oldUserID prID := by
      rw [hcand]; exact List.mem_cons_self _ _
    obtain ⟨u, _, hu, _, _, _, ⟨pr2, hpr2, hauth⟩, hnot⟩ := mem_reassignCandidates hcm
    rw [hpr] at hpr2
    cases hpr2
    subst hu
    obtain ⟨hnd, hna, hlen⟩ := h.2 pr hprmem
    unfold updateReviewers
    refine ⟨⟨h.1.1, ?_⟩, ?_⟩
    · simp only
      rw [map_key_eq (fun p => p.PullRequestID) _ s.pull_requests]
      · exact h.1.2
      · intro x _
        by_cases e : x.PullRequestID = prID <;> simp [e]
    · intro p hp
      simp only [List.mem_map] at hp
      obtain ⟨q, hq, rfl⟩ := hp
      by_cases e : q.PullRequestID = prID
      · have hqp : q = pr := pr_eq_of_keyed h.1.2 hq hprmem (e.trans hprid.symm)
        subst hqp
        simp only [e, beq_self_eq_true, if_true]
        refine ⟨replaceInSlice_nodup _ _ hnd (hnot q hq e), ?_, ?_⟩
        · intro hin
          rcases mem_replaceInSlice hin with h1 | ⟨h1, _⟩
          · exact hauth h1.symm
          · exact hna h1
        · rw [replaceInSlice_length]; exact hlen
      · have e2 : (q.PullRequestID == prID) = false := by simpa using e
        simp only [e2, Bool.false_eq_true, if_false]
        exact h.2 q hq

theorem reassignOpenReviews_inv (userID : String) (prs : List PullRequest) :
    ∀ s : Store, s.Inv → (reassignOpenReviews s userID prs).Inv := by
  induction prs with
  | nil => intro s h; exact h
  | cons pr rest ih =>
    intro s h
    unfold reassignOpenReviews
    by_cases e : pr.Status = "OPEN"
    · simp only [e, beq_self_eq_true, if_true]
      apply ih
      rw [reassignReviewerInTx_eq]
      exact reassignReviewer_inv s _ _ h
    · have e2 : (pr.Status == "OPEN") = false := by simpa using e
      simp only [e2, Bool.false_eq_true, if_false]
      exact ih s h

theorem deactivateUserInTx_snd (s : Store) (userID : String) :
    (deactivateUserInTx s userID).2 =
      { users := (reassignOpenReviews s userID (getUserReviewsInTx s userID)).users.map
          (fun u => if u.UserID == userID then { u with IsActive := false } else u),
        pull_requests :=
          (reassignOpenReviews s userID (getUserReviewsInTx s userID)).pull_requests } := by
  unfold deactivateUserInTx
  simp only []
  cases ((reassignOpenReviews s userID (getUserReviewsInTx s userID)).users.map
    (fun u => if u.UserID == userID then { u with IsActive := false } else u)).find?
    (fun u => u.UserID == userID) <;> rfl

theorem deactivateUserInTx_inv (s : Store) (userID : String) (h : s.Inv) :
    (deactivateUserInTx s userID).2.Inv := by
  rw [deactivateUserInTx_snd]
  have h1 := reassignOpenReviews_inv userID (getUserReviewsInTx s userID) s h
  exact ⟨⟨setActive_keyed _ _ _ h1.1.1, h1.1.2⟩, h1.2⟩

theorem reachable_inv (s : Store) (h : Reachable s) : s.Inv := by
  induction h with
  | init => exact ⟨⟨List.nodup_nil, List.nodup_nil⟩, by intro pr hpr; cases hpr⟩
  | reorder users prs _ hu hp ih =>
    refine ⟨⟨((hu.map _).nodup_iff).mpr ih.1.1, ((hp.map _).nodup_iff).mpr ih.1.2⟩, ?_⟩
    intro pr hpr
    exact ih.2 pr (hp.mem_iff.mp hpr)
  | createTeam t _ ih => exact createTeam_inv _ t ih
  | setUserActive userID isActive _ ih => exact setUserActive_inv _ userID isActive ih
  | createPR shuffle now prID prName authorID _ hs ih =>
    exact createPR_inv shuffle now _ prID prName authorID hs ih
  | mergePR now prID _ ih => exact mergePR_inv now _ prID ih
  | reassignReviewer prID oldUserID _ ih => exact reassignReviewer_inv _ prID oldUserID ih
  | deactivateUser userID _ ih => exact deactivateUserInTx_inv _ userID ih

theorem runExample_reachable : Reachable runExample :=
  Reachable.reassignReviewer "pr1" "u4"
    (Reachable.createPR List.reverse 7 "pr1" "one" "u1"
      (Reachable.createTeam _ Reachable.init) (fun c => List.reverse_perm c))

/-- C1: in every store reachable from the empty store by CreateTeam, SetUserActive,
CreatePR, MergePR, ReassignReviewer and deactivateUserInTx calls, the reviewer list of
every pull request has no duplicate and does not hold the author of the pull request. -/
theorem reachable_reviewers_unique (s : Store) (h : Reachable s) :
    ∀ pr ∈ s.pull_requests,
      pr.AssignedReviewers.Nodup ∧ pr.AuthorID ∉ pr.AssignedReviewers := by
  intro pr hpr
  obtain ⟨h1, h2, _⟩ := (reachable_inv s h).2 pr hpr
  exact ⟨h1, h2⟩

/-- Run of C1 on the store after a team creation, a pull request creation and a
reassignment. -/
theorem reachable_reviewers_unique_witness :
    Reachable runExample ∧
    ∀ pr ∈ runExample.pull_requests,
      pr.AssignedReviewers.Nodup ∧ pr.AuthorID ∉ pr.AssignedReviewers :=
  ⟨runExample_reachable, reachable_reviewers_unique runExample runExample_reachable⟩

/-- C2: in every store reachable from the empty store by the store operations, the
reviewer list of every pull request has at most two members. -/
theorem reachable_reviewers_bounded (s : Store) (h : Reachable s) :
    ∀ pr ∈ s.pull_requests, pr.AssignedReviewers.length ≤ 2 := by
  intro pr hpr
  exact ((reachable_inv s h).2 pr hpr).2.2

/-- Run of C2 on the store after a team creation, a pull request creation and a
reassignment. -/
theorem reachable_reviewers_bounded_witness :
    Reachable runExample ∧
    ∀ pr ∈ runExample.pull_requests, pr.AssignedReviewers.length ≤ 2 :=
  ⟨runExample_reachable, reachable_reviewers_bounded runExample runExample_reachable⟩

/-! ## replaceInSlice -/

theorem contains_replaceInSlice_old {s : List String} {old replacement : String}
    (hne : replacement ≠ old) : contains (replaceInSlice s old replacement) old = false := by
  apply contains_eq_false_of_not_mem
  intro hin
  rcases mem_replaceInSlice hin with h | ⟨_, h⟩
  · exact hne h.symm
  · exact h rfl

/-- C16: replaceInSlice returns a list of the length of `s` that holds `replacement`
wherever `s` holds `old` and the member of `s` everywhere else, hence `s` itself when
`old` does not occur, and the occurrences of `replacement` are exactly those of `old`
when `s` does not hold `replacement`; when `s` is duplicate-free, contains `old` and
does not contain `replacement`, the result is duplicate-free, contains `replacement`
and does not contain `old`. -/
theorem replaceInSlice_contract (s : List String) (old replacement : String) :
    (replaceInSlice s old replacement).length = s.length ∧
    (∀ i : Nat, (s[i]? = some old → (replaceInSlice s old replacement)[i]? = some replacement) ∧
      (∀ v, s[i]? = some v → v ≠ old → (replaceInSlice s old replacement)[i]? = some v) ∧
      (s[i]? = none → (replaceInSlice s old replacement)[i]? = none)) ∧
    (contains s old = false → replaceInSlice s old replacement = s) ∧
    (contains s replacement = false → ∀ i : Nat,
      ((replaceInSlice s old replacement)[i]? = some replacement ↔ s[i]? = some old)) ∧
    (s.Nodup → contains s old = true → contains s replacement = false →
      (replaceInSlice s old replacement).Nodup ∧
      contains (replaceInSlice s old replacement) replacement = true ∧
      contains (replaceInSlice s old replacement) old = false) := by
  have hget : ∀ i : Nat, (replaceInSlice s old replacement)[i]? =
      (s[i]?).map (fun v => if v = old then replacement else v) := by
    intro i
    rw [replaceInSlice_eq_map, List.getElem?_map]
  refine ⟨replaceInSlice_length s old replacement, ?_, ?_, ?_, ?_⟩
  · intro i
    refine ⟨?_, ?_, ?_⟩
    · intro h; rw [hget, h]; simp
    · intro v h hv; rw [hget, h]; simp [hv]
    · intro h; rw [hget, h]; rfl
  · intro hc
    have hnot : old ∉ s := by
      intro hin
      rw [(contains_iff_mem _ _).mpr hin] at hc
      exact Bool.noConfusion hc
    rw [replaceInSlice_eq_map]
    conv_rhs => rw [← List.map_id s]
    apply List.map_congr_left
    intro v hv
    have : v ≠ old := fun e => hnot (e ▸ hv)
    simp [this]
  · intro hc i
    have hnot : replacement ∉ s := by
      intro hin
      rw [(contains_iff_mem _ _).mpr hin] at hc
      exact Bool.noConfusion hc
    rw [hget]
    cases hs : s[i]? with
    | none => simp
    | some v =>
      have hv : v ∈ s := List.getElem?_mem hs
      have hvr : v ≠ replacement := fun e => hnot (e ▸ hv)
      by_cases e : v = old
      · simp [e]
      · simp [e, hvr]
  · intro hnd hold hrep
    have hin : old ∈ s := (contains_iff_mem _ _).mp hold
    have hnot : replacement ∉ s := by
      intro h
      rw [(contains_iff_mem _ _).mpr h] at hrep
      exact Bool.noConfusion hrep
    have hne : replacement ≠ old := fun e => hnot (e ▸ hin)
    refine ⟨replaceInSlice_nodup old replacement hnd hnot, ?_,
      contains_replaceInSlice_old hne⟩
    rw [contains_iff_mem, replaceInSlice_eq_map, List.mem_map]
    exact ⟨old, hin, by simp⟩

/-- Run of C16: substituting u4 for u2 in the list u2, u3. -/
theorem replaceInSlice_contract_witness :
    replaceInSlice ["u2", "u3"] "u2" "u4" = ["u4", "u3"] ∧
    replaceInSlice ["u2", "u3"] "u9" "u4" = ["u2", "u3"] ∧
    (replaceInSlice ["u2", "u3"] "u2" "u4").Nodup ∧
    contains (replaceInSlice ["u2", "u3"] "u2" "u4") "u4" = true ∧
    contains (replaceInSlice ["u2", "u3"] "u2" "u4") "u2" = false :=
  ⟨by decide,
   (replaceInSlice_contract ["u2", "u3"] "u9" "u4").2.2.1 (by decide),
   (replaceInSlice_contract ["u2", "u3"] "u2" "u4").2.2.2.2 (by decide) (by decide)
     (by decide)⟩

/-! ## CreateTeam -/

theorem upsertUser_other {l : List User} {u r : User} (hne : u.UserID ≠ r.UserID) :
    r ∈ upsertUser l u ↔ r ∈ l := by
  unfold upsertUser
  cases hany : l.any (fun x => x.UserID == u.UserID) with
  | true =>
    simp only [if_true, List.mem_map]
    constructor
    · rintro ⟨x, hx, hfx⟩
      by_cases e : x.UserID = u.UserID
      · simp only [e, beq_self_eq_true, if_true] at hfx
        exact absurd (congrArg User.UserID hfx) hne
      · have e2 : (x.UserID == u.UserID) = false := by simpa using e
        simp only [e2, Bool.false_eq_true, if_false] at hfx
        exact hfx ▸ hx
    · intro hr
      refine ⟨r, hr, ?_⟩
      have e2 : (r.UserID == u.UserID) = false := by simpa using fun e => hne e.symm
      simp [e2]
  | false =>
    simp only [Bool.false_eq_true, if_false, List.mem_append, List.mem_singleton]
    constructor
    · rintro (h | h)
      · exact h
      · exact absurd (congrArg User.UserID h).symm hne
    · intro h; exact Or.inl h

theorem upsertUser_self (l : List User) (u : User) :
    u ∈ upsertUser l u ∧ ∀ r ∈ upsertUser l u, r.UserID = u.UserID → r = u := by
  unfold upsertUser
  cases hany : l.any (fun x => x.UserID == u.UserID) with
  | true =>
    simp only [if_true, List.mem_map]
    constructor
    · rw [List.any_eq_true] at hany
      obtain ⟨x, hx, hxe⟩ := hany
      exact ⟨x, hx, by simp [hxe]⟩
    · rintro r ⟨x, _, hfx⟩ hid
      by_cases e : x.UserID = u.UserID
      · simp only [e, beq_self_eq_true, if_true] at hfx
        exact hfx.symm
      · have e2 : (x.UserID == u.UserID) = false := by simpa using e
        simp only [e2, Bool.false_eq_true, if_false] at hfx
        exact absurd (hfx ▸ hid) e
  | false =>
    simp only [Bool.false_eq_true, if_false, List.mem_append, List.mem_singleton]
    refine ⟨Or.inr trivial, ?_⟩
    rintro r (h | h) hid
    · rw [List.any_eq_false] at hany
      exact absurd (by simp [hid]) (hany r h)
    · exact h

theorem foldl_upsert_other (team : String) (members : List TeamMember) (r : User)
    (hne : ∀ m ∈ members, m.UserID ≠ r.UserID) :
    ∀ users : List User,
      (r ∈ members.foldl
        (fun us m => upsertUser us ⟨m.UserID, m.Username, team, m.IsActive⟩) users ↔
        r ∈ users) := by
  induction members with
  | nil => intro users; rfl
  | cons m rest ih =>
    intro users
    simp only [List.foldl_cons]
    rw [ih (fun m' hm' => hne m' (List.mem_cons_of_mem _ hm'))]
    exact upsertUser_other (hne m (List.mem_cons_self _ _))

theorem foldl_upsert_last (team : String) (pre post : List TeamMember) (m : TeamMember)
    (users : List User) (hpost : ∀ m' ∈ post, m'.UserID ≠ m.UserID) :
    (⟨m.UserID, m.Username, team, m.IsActive⟩ : User) ∈ (pre ++ m :: post).foldl
        (fun us m => upsertUser us ⟨m.UserID, m.Username, team, m.IsActive⟩) users ∧
    ∀ r ∈ (pre ++ m :: post).foldl
        (fun us m => upsertUser us ⟨m.UserID, m.Username, team, m.IsActive⟩) users,
      r.UserID = m.UserID → r = ⟨m.UserID, m.Username, team, m.IsActive⟩ := by
  simp only [List.foldl_append, List.foldl_cons]
  obtain ⟨h1, h2⟩ := upsertUser_self
    (pre.foldl (fun us m => upsertUser us ⟨m.UserID, m.Username, team, m.IsActive⟩) users)
    ⟨m.UserID, m.Username, team, m.IsActive⟩
  constructor
  · exact (foldl_upsert_other team post _ hpost _).mpr h1
  · intro r hr hid
    have hne : ∀ m' ∈ post, m'.UserID ≠ r.UserID := by
      intro m' hm'; rw [hid]; exact hpost m' hm'
    exact h2 r ((foldl_upsert_other team post r hne _).mp hr) hid

theorem createTeam_of_taken (s : Store) (t : Team)
    (h : ∃ u ∈ s.users, u.TeamName = t.TeamName) :
    CreateTeam s t = (.error .ErrTeamExists, s) := by
  obtain ⟨u, hu, hteam⟩ := h
  have hpos : (s.users.filter (fun u => u.TeamName == t.TeamName)).length > 0 := by
    apply List.length_pos_of_mem (a := u)
    rw [List.mem_filter]
    exact ⟨hu, by simp [hteam]⟩
  simp [CreateTeam, hpos]

theorem createTeam_of_free (s : Store) (t : Team)
    (h : ∀ u ∈ s.users, u.TeamName ≠ t.TeamName) :
    CreateTeam s t = (.ok (),
      { users := t.Members.foldl
          (fun us m => upsertUser us ⟨m.UserID, m.Username, t.TeamName, m.IsActive⟩) s.users,
        pull_requests := s.pull_requests }) := by
  have hnil : s.users.filter (fun u => u.TeamName == t.TeamName) = [] := by
    rw [List.filter_eq_nil_iff]
    intro u hu
    simpa using h u hu
  simp [CreateTeam, hnil]

/-- C12: CreateTeam fails with TeamExists exactly when some user row has the team name,
and then the store is as it was; otherwise it succeeds, the pull requests are as they
were, for every listed member id the users table holds one and the same row for it, with
the team name of the request and the username and active flag of the last entry listed
for that id, and the rows of the ids that are not listed are those of the old table. -/
theorem createTeam_contract (s : Store) (t : Team) :
    ((CreateTeam s t).1 = .error .ErrTeamExists ↔
      ∃ u ∈ s.users, u.TeamName = t.TeamName) ∧
    ((∃ u ∈ s.users, u.TeamName = t.TeamName) → (CreateTeam s t).2 = s) ∧
    ((∀ u ∈ s.users, u.TeamName ≠ t.TeamName) →
      (CreateTeam s t).1 = .ok () ∧
      (CreateTeam s t).2.pull_requests = s.pull_requests ∧
      (∀ (pre post : List TeamMember) (m : TeamMember), t.Members = pre ++ m :: post →
        (∀ m' ∈ post, m'.UserID ≠ m.UserID) →
        (⟨m.UserID, m.Username, t.TeamName, m.IsActive⟩ : User) ∈ (CreateTeam s t).2.users ∧
        ∀ r ∈ (CreateTeam s t).2.users, r.UserID = m.UserID →
          r = ⟨m.UserID, m.Username, t.TeamName, m.IsActive⟩) ∧
      (∀ r : User, (∀ m ∈ t.Members, m.UserID ≠ r.UserID) →
        (r ∈ (CreateTeam s t).2.users ↔ r ∈ s.users))) := by
  refine ⟨?_, ?_, ?_⟩
  · constructor
    · intro herr
      by_contra hno
      have hfree : ∀ u ∈ s.users, u.TeamName ≠ t.TeamName := by
        intro u hu e; exact hno ⟨u, hu, e⟩
      rw [createTeam_of_free s t hfree] at herr
      exact Except.noConfusion herr
    · intro h
      rw [createTeam_of_taken s t h]
  · intro h
    rw [createTeam_of_taken s t h]
  · intro hfree
    rw [createTeam_of_free s t hfree]
    refine ⟨rfl, rfl, ?_, ?_⟩
    · intro pre post m hmem hpost
      simp only [hmem]
      exact foldl_upsert_last t.TeamName pre post m s.users hpost
    · intro r hne
      exact foldl_upsert_other t.TeamName t.Members r hne s.users

/-- Run of C12: team infra on the example store, with u2 of team core listed twice, and
team core once more. -/
theorem createTeam_contract_witness :
    (CreateTeam exampleStore ⟨"core", [⟨"u7", "Gus", true⟩]⟩).2 = exampleStore ∧
    (CreateTeam exampleStore
      ⟨"infra", [⟨"u2", "Bo", true⟩, ⟨"v1", "Eve", true⟩, ⟨"u2", "Rob", false⟩]⟩).1
        = .ok () ∧
    (CreateTeam exampleStore
      ⟨"infra", [⟨"u2", "Bo", true⟩, ⟨"v1", "Eve", true⟩, ⟨"u2", "Rob", false⟩]⟩).2.users
        = [⟨"u1", "Ann", "core", true⟩, ⟨"u2", "Rob", "infra", false⟩,
           ⟨"u3", "Cid", "core", true⟩, ⟨"u4", "Dee", "core", false⟩,
           ⟨"v1", "Eve", "infra", true⟩] :=
  ⟨(createTeam_contract exampleStore ⟨"core", [⟨"u7", "Gus", true⟩]⟩).2.1 (by decide),
   ((createTeam_contract exampleStore
      ⟨"infra", [⟨"u2", "Bo", true⟩, ⟨"v1", "Eve", true⟩, ⟨"u2", "Rob", false⟩]⟩).2.2
      (by decide)).1,
   by decide⟩

/-! ## a reassignment, row by row -/

theorem reassignRow_id (users : List User) (oldUserID : String) (p : PullRequest) :
    (reassignRow users oldUserID p).PullRequestID = p.PullRequestID := by
  unfold reassignRow
  split
  · rfl
  · split
    · rfl
    · split <;> rfl

theorem reassignCandidates_eq_row {s : Store} {oldUserID prID : String} {pr : PullRequest}
    (hk : (s.pull_requests.map (fun p => p.PullRequestID)).Nodup)
    (hpr : s.pull_requests.find? (fun p => p.PullRequestID == prID) = some pr) :
    reassignCandidates s oldUserID prID = rowCandidates s.users oldUserID pr := by
  unfold reassignCandidates rowCandidates
  simp only [scalarSubquery_filter_map, hpr, Option.map_some']
  congr 1
  apply List.filter_congr
  intro u _
  rw [any_row_of_keyed hk hpr (fun p => jsonbExists p.AssignedReviewers u.UserID)]

theorem map_rows_eq_self {prs : List PullRequest} {prID : String} (f : PullRequest → PullRequest)
    (h : ∀ p ∈ prs, p.PullRequestID = prID → f p = p) :
    prs.map (fun p => if p.PullRequestID == prID then f p else p) = prs := by
  conv_rhs => rw [← List.map_id prs]
  apply List.map_congr_left
  intro p hp
  by_cases e : p.PullRequestID = prID
  · simp [e, h p hp e]
  · simp [e]

theorem reassign_snd_eq_map (s : Store) (prID oldUserID : String)
    (hk : (s.pull_requests.map (fun p => p.PullRequestID)).Nodup) :
    (ReassignReviewer s prID oldUserID).2 =
      { users := s.users,
        pull_requests := s.pull_requests.map (fun p =>
          if p.PullRequestID == prID then reassignRow s.users oldUserID p else p) } := by
  have hrow : ∀ pr, s.pull_requests.find? (fun p => p.PullRequestID == prID) = some pr →
      ∀ p ∈ s.pull_requests, p.PullRequestID = prID → p = pr := by
    intro pr hpr p hp e
    obtain ⟨hm, hid⟩ := find?_pr_mem hpr
    exact pr_eq_of_keyed hk hp hm (e.trans hid.symm)
  rcases reassign_result_cases s prID oldUserID with
    ⟨hpr, hres⟩ | ⟨pr, hpr, hst, hres⟩ | ⟨pr, hpr, hst, hmem, hres⟩ |
    ⟨pr, hpr, hst, hmem, hcand, hres⟩ | ⟨pr, c, rest, hpr, hst, hmem, hcand, hres⟩
  · rw [hres, map_rows_eq_self]
    intro p hp e
    exact absurd e (find?_pr_none.mp hpr p hp)
  · rw [hres, map_rows_eq_self]
    intro p hp e
    rw [hrow pr hpr p hp e]
    simp [reassignRow, hst]
  · rw [hres, map_rows_eq_self]
    intro p hp e
    rw [hrow pr hpr p hp e]
    simp [reassignRow, hst, contains_eq_false_of_not_mem hmem]
  · rw [hres, map_rows_eq_self]
    intro p hp e
    rw [hrow pr hpr p hp e]
    rw [reassignCandidates_eq_row hk hpr] at hcand
    simp [reassignRow, hst, (contains_iff_mem _ _).mpr hmem, hcand]
  · rw [hres]
    show updateReviewers s prID (replaceInSlice pr.AssignedReviewers oldUserID c) = _
    unfold updateReviewers
    congr 1
    apply List.map_congr_left
    intro p hp
    by_cases e : p.PullRequestID = prID
    · rw [hrow pr hpr p hp e]
      rw [reassignCandidates_eq_row hk hpr] at hcand
      have hid : pr.PullRequestID = prID := (find?_pr_mem hpr).2
      simp [reassignRow, hst, (contains_iff_mem _ _).mpr hmem, hcand, hid]
    · simp [e]

theorem reassign_users (s : Store) (prID oldUserID : String) :
    (ReassignReviewer s prID oldUserID).2.users = s.users := by
  rcases reassign_result_cases s prID oldUserID with
    ⟨_, hres⟩ | ⟨_, _, _, hres⟩ | ⟨_, _, _, _, hres⟩ |
    ⟨_, _, _, _, _, hres⟩ | ⟨_, _, _, _, _, _, _, hres⟩ <;>
    first | (rw [hres]; rfl) | rw [hres]

theorem reassignOpenReviews_users (userID : String) (prs : List PullRequest) :
    ∀ s : Store, (reassignOpenReviews s userID prs).users = s.users := by
  induction prs with
  | nil => intro s; rfl
  | cons pr rest ih =>
    intro s
    unfold reassignOpenReviews
    split
    · rw [ih, reassignReviewerInTx_eq, reassign_users]
    · exact ih s

theorem reassignOpenReviews_eq_map (userID : String) (L : List PullRequest) :
    ∀ s : Store, (s.pull_requests.map (fun p => p.PullRequestID)).Nodup →
      (L.map (fun p => p.PullRequestID)).Nodup →
      reassignOpenReviews s userID L =
        { users := s.users,
          pull_requests := s.pull_requests.map (fun p =>
            if L.any (fun l => l.Status == "OPEN" && l.PullRequestID == p.PullRequestID)
            then reassignRow s.users userID p else p) } := by
  induction L with
  | nil =>
    intro s _ _
    simp [reassignOpenReviews]
  | cons l rest ih =>
    intro s hk hL
    rw [List.map_cons, List.nodup_cons] at hL
    obtain ⟨hl, hrest⟩ := hL
    have hnone : rest.any
        (fun l' => l'.Status == "OPEN" && l'.PullRequestID == l.PullRequestID) = false := by
      rw [List.any_eq_false]
      intro l' hl' hcon
      simp only [Bool.and_eq_true, beq_iff_eq] at hcon
      exact hl (List.mem_map.mpr ⟨l', hl', hcon.2⟩)
    unfold reassignOpenReviews
    by_cases e : l.Status = "OPEN"
    · simp only [e, beq_self_eq_true, if_true, List.any_cons, Bool.true_and]
      rw [reassignReviewerInTx_eq, reassign_snd_eq_map s l.PullRequestID userID hk]
      have hk2 : ((s.pull_requests.map (fun p =>
          if p.PullRequestID == l.PullRequestID then reassignRow s.users userID p
          else p)).map (fun p => p.PullRequestID)).Nodup := by
        rw [map_key_eq (fun p => p.PullRequestID) _ s.pull_requests]
        · exact hk
        · intro x _
          by_cases ex : x.PullRequestID = l.PullRequestID <;> simp [ex, reassignRow_id]
      rw [ih _ hk2 hrest]
      simp only [List.map_map]
      congr 1
      apply List.map_congr_left
      intro p _
      by_cases ep : p.PullRequestID = l.PullRequestID
      · simp only [Function.comp_apply, ep, beq_self_eq_true, if_true, reassignRow_id,
          Bool.true_or, hnone, Bool.false_eq_true, if_false]
      · have ep2 : ¬ l.PullRequestID = p.PullRequestID := fun h => ep h.symm
        simp [ep, ep2]
    · have e2 : (l.Status == "OPEN") = false := by simpa using e
      simp only [e2, Bool.false_eq_true, if_false, List.any_cons, Bool.false_and,
        Bool.false_or]
      exact ih s hk hrest

theorem getUserReviewsInTx_keyed (s : Store) (userID : String)
    (hk : (s.pull_requests.map (fun p => p.PullRequestID)).Nodup) :
    ((getUserReviewsInTx s userID).map (fun p => p.PullRequestID)).Nodup := by
  unfold getUserReviewsInTx
  rw [List.map_map]
  exact List.Nodup.sublist ((List.filter_sublist _).map _) hk

theorem getUserReviewsInTx_any (s : Store) (userID : String)
    (hk : (s.pull_requests.map (fun p => p.PullRequestID)).Nodup) (p : PullRequest)
    (hp : p ∈ s.pull_requests) :
    (getUserReviewsInTx s userID).any
        (fun l => l.Status == "OPEN" && l.PullRequestID == p.PullRequestID) =
      (p.Status == "OPEN" && jsonbExists p.AssignedReviewers userID) := by
  unfold getUserReviewsInTx
  cases hc : (p.Status == "OPEN" && jsonbExists p.AssignedReviewers userID) with
  | true =>
    simp only [Bool.and_eq_true, beq_iff_eq] at hc
    rw [List.any_eq_true]
    refine ⟨_, List.mem_map.mpr ⟨p, List.mem_filter.mpr ⟨hp, hc.2⟩, rfl⟩, ?_⟩
    simp [hc.1]
  | false =>
    rw [List.any_eq_false]
    intro l hl hcon
    rw [List.mem_map] at hl
    obtain ⟨q, hq, rfl⟩ := hl
    rw [List.mem_filter] at hq
    simp only [Bool.and_eq_true, beq_iff_eq] at hcon
    have hqp : q = p := pr_eq_of_keyed hk hq.1 hp hcon.2
    rw [hqp] at hq hcon
    simp [hcon.1, hq.2] at hc

theorem deactivate_prs_eq (s : Store) (userID : String)
    (hk : (s.pull_requests.map (fun p => p.PullRequestID)).Nodup) :
    (deactivateUserInTx s userID).2.pull_requests =
      s.pull_requests.map (fun p =>
        if p.Status == "OPEN" && jsonbExists p.AssignedReviewers userID
        then reassignRow s.users userID p else p) := by
  rw [deactivateUserInTx_snd,
    reassignOpenReviews_eq_map userID _ s hk (getUserReviewsInTx_keyed s userID hk)]
  apply List.map_congr_left
  intro p hp
  rw [getUserReviewsInTx_any s userID hk p hp]

theorem deactivate_users_eq (s : Store) (userID : String) :
    (deactivateUserInTx s userID).2.users =
      s.users.map (fun u => if u.UserID == userID then { u with IsActive := false } else u) := by
  rw [deactivateUserInTx_snd, reassignOpenReviews_users]

/-! ## deactivateUserInTx -/

theorem find?_setActive (users : List User) (userID : String) (b : Bool) :
    (users.map (fun u => if u.UserID == userID then { u with IsActive := b } else u)).find?
        (fun u => u.UserID == userID) =
      (users.find? (fun u => u.UserID == userID)).map (fun u => { u with IsActive := b }) := by
  induction users with
  | nil => rfl
  | cons a rest ih =>
    by_cases e : a.UserID = userID
    · simp [List.find?_cons, e]
    · have e2 : (a.UserID == userID) = false := by simpa using e
      simp only [List.map_cons, e2, Bool.false_eq_true, if_false, List.find?_cons]
      exact ih

theorem deactivate_fst (s : Store) (userID : String) :
    (deactivateUserInTx s userID).1 =
      match s.users.find? (fun u => u.UserID == userID) with
      | none => .error (.wrap "set user active" .ErrNotFound)
      | some u => .ok { u with IsActive := false } := by
  unfold deactivateUserInTx
  simp only [reassignOpenReviews_users, find?_setActive]
  cases s.users.find? (fun u => u.UserID == userID) <;> rfl

/-- C13: when a user row with the id exists, deactivateUserInTx returns that row with
the active flag off, and the users table afterwards is the old one with the flag off on
the rows of that id, whatever the reassignment attempts returned; when no user row has
the id it fails with the wrapped NotFound error, and it fails with an error that is
NotFound only then. -/
theorem deactivate_contract (s : Store) (userID : String) :
    ((∃ u ∈ s.users, u.UserID = userID) →
      ∃ u ∈ s.users, u.UserID = userID ∧
        (deactivateUserInTx s userID).1 = .ok { u with IsActive := false } ∧
        (deactivateUserInTx s userID).2.users = s.users.map
          (fun r => if r.UserID == userID then { r with IsActive := false } else r) ∧
        (∀ r ∈ (deactivateUserInTx s userID).2.users, r.UserID = userID →
          r.IsActive = false)) ∧
    ((∀ u ∈ s.users, u.UserID ≠ userID) →
      (deactivateUserInTx s userID).1 = .error (.wrap "set user active" .ErrNotFound)) ∧
    ((∃ e, (deactivateUserInTx s userID).1 = .error e ∧ e.Is .ErrNotFound = true) ↔
      ∀ u ∈ s.users, u.UserID ≠ userID) := by
  have hnone : (∀ u ∈ s.users, u.UserID ≠ userID) →
      (deactivateUserInTx s userID).1 = .error (.wrap "set user active" .ErrNotFound) := by
    intro hno
    have hf : s.users.find? (fun u => u.UserID == userID) = none := by
      rw [List.find?_eq_none]
      intro u hu
      simpa using hno u hu
    rw [deactivate_fst, hf]
  have hsome : (∃ u ∈ s.users, u.UserID = userID) →
      ∃ u ∈ s.users, u.UserID = userID ∧
        (deactivateUserInTx s userID).1 = .ok { u with IsActive := false } := by
    rintro ⟨u, hu, hid⟩
    cases hf : s.users.find? (fun u => u.UserID == userID) with
    | none =>
      rw [List.find?_eq_none] at hf
      exact absurd (by simp [hid]) (hf u hu)
    | some v =>
      refine ⟨v, List.mem_of_find?_eq_some hf, by simpa using List.find?_some hf, ?_⟩
      rw [deactivate_fst, hf]
  refine ⟨?_, hnone, ?_⟩
  · intro hex
    obtain ⟨u, hu, hid, hres⟩ := hsome hex
    refine ⟨u, hu, hid, hres, deactivate_users_eq s userID, ?_⟩
    intro r hr hrid
    rw [deactivate_users_eq, List.mem_map] at hr
    obtain ⟨x, _, hx⟩ := hr
    by_cases e : x.UserID = userID
    · simp only [e, beq_self_eq_true, if_true] at hx
      rw [← hx]
    · have e2 : (x.UserID == userID) = false := by simpa using e
      simp only [e2, Bool.false_eq_true, if_false] at hx
      exact absurd (hx ▸ hrid) e
  · constructor
    · rintro ⟨e, he, _⟩ u hu hid
      obtain ⟨v, _, _, hres⟩ := hsome ⟨u, hu, hid⟩
      rw [hres] at he
      exact Except.noConfusion he
    · intro hno
      exact ⟨_, hnone hno, by decide⟩

/-- Run of C13 on the example store: u2 reviews pr1, pr2 and pr3, of which pr3 has no
candidate; u9 has no row. -/
theorem deactivate_contract_witness :
    (∃ u ∈ exampleStore.users, u.UserID = "u2" ∧
      (deactivateUserInTx exampleStore "u2").1 = .ok { u with IsActive := false } ∧
      (deactivateUserInTx exampleStore "u2").2.users = exampleStore.users.map
        (fun r => if r.UserID == "u2" then { r with IsActive := false } else r) ∧
      (∀ r ∈ (deactivateUserInTx exampleStore "u2").2.users, r.UserID = "u2" →
        r.IsActive = false)) ∧
    (deactivateUserInTx exampleStore "u9").1 =
      .error (.wrap "set user active" .ErrNotFound) :=
  ⟨(deactivate_contract exampleStore "u2").1 (by decide),
   (deactivate_contract exampleStore "u9").2.1 (by decide)⟩

/-! ## MERGED pull requests -/

theorem reassignRow_of_merged (users : List User) (oldUserID : String) (p : PullRequest)
    (h : p.Status = "MERGED") : reassignRow users oldUserID p = p := by
  simp [reassignRow, h]

theorem reassignRow_status (users : List User) (oldUserID : String) (p : PullRequest) :
    (reassignRow users oldUserID p).Status = p.Status ∧
    (reassignRow users oldUserID p).MergedAt = p.MergedAt := by
  unfold reassignRow
  split
  · exact ⟨rfl, rfl⟩
  · split
    · exact ⟨rfl, rfl⟩
    · split <;> exact ⟨rfl, rfl⟩

theorem mergeRow_of_merged (now : Nat) (p : PullRequest) (h : p.Status = "MERGED")
    (hat : p.MergedAt ≠ none) : mergeRow now p = p := by
  cases hm : p.MergedAt with
  | none => exact absurd hm hat
  | some x =>
    cases p
    simp only at h hm
    simp [mergeRow, h, hm]

theorem holdsRow_map {users : List User} {prs : List PullRequest} {pr : PullRequest}
    (f : PullRequest → PullRequest)
    (hk : (prs.map (fun p => p.PullRequestID)).Nodup) (hpr : pr ∈ prs)
    (hid : ∀ p, (f p).PullRequestID = p.PullRequestID) (hfix : f pr = pr) :
    Store.holdsRow ⟨users, prs.map f⟩ pr := by
  constructor
  · exact List.mem_map.mpr ⟨pr, hpr, hfix⟩
  · intro q hq hqid
    simp only [List.mem_map] at hq
    obtain ⟨p, hp, rfl⟩ := hq
    rw [hid] at hqid
    rw [pr_eq_of_keyed hk hp hpr hqid, hfix]

theorem holdsRow_self {s : Store} {pr : PullRequest}
    (hk : (s.pull_requests.map (fun p => p.PullRequestID)).Nodup)
    (hpr : pr ∈ s.pull_requests) : s.holdsRow pr :=
  ⟨hpr, fun _ hq hqid => pr_eq_of_keyed hk hq hpr hqid⟩

theorem createTeam_prs (s : Store) (t : Team) :
    (CreateTeam s t).2.pull_requests = s.pull_requests := by
  by_cases h : ∃ u ∈ s.users, u.TeamName = t.TeamName
  · rw [createTeam_of_taken s t h]
  · have hfree : ∀ u ∈ s.users, u.TeamName ≠ t.TeamName := by
      intro u hu e; exact h ⟨u, hu, e⟩
    rw [createTeam_of_free s t hfree]

theorem reachable_merged_stamped (s : Store) (h : Reachable s) :
    ∀ p ∈ s.pull_requests, p.Status = "MERGED" → p.MergedAt ≠ none := by
  induction h with
  | init => intro p hp; cases hp
  | reorder users prs _ _ hp ih =>
    intro p hpm
    exact ih p (hp.mem_iff.mp hpm)
  | createTeam t _ ih => rw [createTeam_prs]; exact ih
  | setUserActive userID isActive _ ih => rw [setUserActive_snd]; exact ih
  | @createPR s0 shuffle now prID prName authorID _ _ ih =>
    by_cases hex : ∃ p ∈ s0.pull_requests, p.PullRequestID = prID
    · rw [createPR_of_taken shuffle now s0 prID prName authorID hex]; exact ih
    · have hfree : ∀ p ∈ s0.pull_requests, p.PullRequestID ≠ prID := by
        intro p hp e; exact hex ⟨p, hp, e⟩
      cases hauthor : s0.users.find? (fun u => u.UserID == authorID) with
      | none =>
        have hno : ∀ u ∈ s0.users, u.UserID ≠ authorID := by
          rw [List.find?_eq_none] at hauthor
          intro u hu
          simpa using hauthor u hu
        rw [createPR_of_no_author shuffle now s0 prID prName authorID hfree hno]
        exact ih
      | some author =>
        rw [createPR_eq_of_author shuffle now prName hfree hauthor]
        intro p hp hst
        simp only [List.mem_append, List.mem_singleton] at hp
        rcases hp with hp | rfl
        · exact ih p hp hst
        · have hne : ("OPEN" : String) ≠ "MERGED" := by decide
          exact absurd hst hne
  | @mergePR s0 now prID _ ih =>
    rw [mergePR_snd]
    intro p hp hst
    simp only [List.mem_map] at hp
    obtain ⟨q, hq, rfl⟩ := hp
    by_cases e : q.PullRequestID = prID
    · simp [e, mergeRow]
    · have e2 : (q.PullRequestID == prID) = false := by simpa using e
      simp only [e2, Bool.false_eq_true, if_false] at hst ⊢
      exact ih q hq hst
  | @reassignReviewer s0 prID oldUserID hr ih =>
    rw [reassign_snd_eq_map s0 prID oldUserID (reachable_inv s0 hr).1.2]
    intro p hp hst
    simp only [List.mem_map] at hp
    obtain ⟨q, hq, rfl⟩ := hp
    by_cases e : q.PullRequestID = prID
    · simp only [e, beq_self_eq_true, if_true] at hst ⊢
      rw [(reassignRow_status _ _ q).1] at hst
      rw [(reassignRow_status _ _ q).2]
      exact ih q hq hst
    · have e2 : (q.PullRequestID == prID) = false := by simpa using e
      simp only [e2, Bool.false_eq_true, if_false] at hst ⊢
      exact ih q hq hst
  | @deactivateUser s0 userID hr ih =>
    rw [deactivate_prs_eq s0 userID (reachable_inv s0 hr).1.2]
    intro p hp hst
    simp only [List.mem_map] at hp
    obtain ⟨q, hq, rfl⟩ := hp
    split at hst
    · rw [(reassignRow_status _ _ q).1] at hst
      rename_i hc
      rw [if_pos hc, (reassignRow_status _ _ q).2]
      exact ih q hq hst
    · rename_i hc
      rw [if_neg hc]
      exact ih q hq hst

/-- C11: in a store that satisfies the key constraints, a pull request that is MERGED,
with its merge time set, is after any one of CreateTeam, SetUserActive, CreatePR,
MergePR, ReassignReviewer and deactivateUserInTx, with any arguments, still a row of the
table, field for field the same, and the only row with its id. -/
theorem merged_immutable (s : Store) (pr : PullRequest) (hk : s.Keyed)
    (hpr : pr ∈ s.pull_requests) (hst : pr.Status = "MERGED")
    (hat : pr.MergedAt ≠ none) :
    (∀ t, (CreateTeam s t).2.holdsRow pr) ∧
    (∀ userID isActive, (SetUserActive s userID isActive).2.holdsRow pr) ∧
    (∀ shuffle now prID prName authorID,
      (CreatePR shuffle now s prID prName authorID).2.holdsRow pr) ∧
    (∀ now prID, (MergePR now s prID).2.holdsRow pr) ∧
    (∀ prID oldUserID, (ReassignReviewer s prID oldUserID).2.holdsRow pr) ∧
    (∀ userID, (deactivateUserInTx s userID).2.holdsRow pr) := by
  have hself : s.holdsRow pr := holdsRow_self hk.2 hpr
  refine ⟨?_, ?_, ?_, ?_, ?_, ?_⟩
  · intro t
    unfold Store.holdsRow
    rw [createTeam_prs]
    exact hself
  · intro userID isActive
    rw [setUserActive_snd]
    exact hself
  · intro shuffle now prID prName authorID
    by_cases hex : ∃ p ∈ s.pull_requests, p.PullRequestID = prID
    · rw [createPR_of_taken shuffle now s prID prName authorID hex]; exact hself
    · have hfree : ∀ p ∈ s.pull_requests, p.PullRequestID ≠ prID := by
        intro p hp e; exact hex ⟨p, hp, e⟩
      cases hauthor : s.users.find? (fun u => u.UserID == authorID) with
      | none =>
        have hno : ∀ u ∈ s.users, u.UserID ≠ authorID := by
          rw [List.find?_eq_none] at hauthor
          intro u hu
          simpa using hauthor u hu
        rw [createPR_of_no_author shuffle now s prID prName authorID hfree hno]
        exact hself
      | some author =>
        rw [createPR_eq_of_author shuffle now prName hfree hauthor]
        constructor
        · exact List.mem_append_left _ hpr
        · intro q hq hqid
          simp only [List.mem_append, List.mem_singleton] at hq
          rcases hq with hq | rfl
          · exact hself.2 q hq hqid
          · exact absurd hqid.symm (hfree pr hpr)
  · intro now prID
    rw [mergePR_snd]
    apply holdsRow_map _ hk.2 hpr
    · intro p
      by_cases e : p.PullRequestID = prID <;> simp [e, mergeRow_id]
    · by_cases e : pr.PullRequestID = prID
      · simp [e, mergeRow_of_merged now pr hst hat]
      · simp [e]
  · intro prID oldUserID
    rw [reassign_snd_eq_map s prID oldUserID hk.2]
    apply holdsRow_map _ hk.2 hpr
    · intro p
      by_cases e : p.PullRequestID = prID <;> simp [e, reassignRow_id]
    · by_cases e : pr.PullRequestID = prID
      · simp [e, reassignRow_of_merged _ _ pr hst]
      · simp [e]
  · intro userID
    have hsnd : (deactivateUserInTx s userID).2 =
        ⟨(deactivateUserInTx s userID).2.users,
          (deactivateUserInTx s userID).2.pull_requests⟩ := rfl
    rw [hsnd, deactivate_prs_eq s userID hk.2]
    apply holdsRow_map _ hk.2 hpr
    · intro p
      split
      · exact reassignRow_id _ _ _
      · rfl
    · simp [reassignRow_of_merged _ _ pr hst]

/-- Run of C11 on the MERGED pull request pr2 of the example store. -/
theorem merged_immutable_witness :
    (MergePR 9 exampleStore "pr2").2.holdsRow
      { PullRequestID := "pr2", PullRequestName := "two", AuthorID := "u1",
        Status := "MERGED", AssignedReviewers := ["u2", "u3"], CreatedAt := 2,
        MergedAt := some 3 } ∧
    (ReassignReviewer exampleStore "pr2" "u2").2.holdsRow
      { PullRequestID := "pr2", PullRequestName := "two", AuthorID := "u1",
        Status := "MERGED", AssignedReviewers := ["u2", "u3"], CreatedAt := 2,
        MergedAt := some 3 } ∧
    (deactivateUserInTx exampleStore "u2").2.holdsRow
      { PullRequestID := "pr2", PullRequestName := "two", AuthorID := "u1",
        Status := "MERGED", AssignedReviewers := ["u2", "u3"], CreatedAt := 2,
        MergedAt := some 3 } :=
  have h := merged_immutable exampleStore
    { PullRequestID := "pr2", PullRequestName := "two", AuthorID := "u1",
      Status := "MERGED", AssignedReviewers := ["u2", "u3"], CreatedAt := 2,
      MergedAt := some 3 } (by decide) (by decide) (by decide) (by decide)
  ⟨h.2.2.2.1 9 "pr2", h.2.2.2.2.1 "pr2" "u2", h.2.2.2.2.2 "u2"⟩

/-! ## the deactivation cascade -/

theorem rowCandidates_eq_spec {users : List User} {oldUserID : String} {o : User}
    (ho : users.find? (fun u => u.UserID == oldUserID) = some o) (p : PullRequest) :
    rowCandidates users oldUserID p =
      specCandidatePool users o.TeamName oldUserID p.AuthorID p.AssignedReviewers := by
  unfold rowCandidates specCandidatePool
  simp only [scalarSubquery_filter_map, ho, Option.map_some']
  congr 1
  apply List.filter_congr
  intro u _
  cases hj : jsonbExists p.AssignedReviewers u.UserID with
  | true =>
    have := (jsonbExists_iff_mem _ _).mp hj
    simp [this]
  | false =>
    have : u.UserID ∉ p.AssignedReviewers := by
      intro hin
      rw [(jsonbExists_iff_mem _ _).mpr hin] at hj
      exact Bool.noConfusion hj
    by_cases h1 : u.IsActive = true <;> by_cases h2 : u.TeamName = o.TeamName <;>
      by_cases h3 : u.UserID = oldUserID <;> by_cases h4 : u.UserID = p.AuthorID <;>
      simp [h1, h2, h3, h4, this]

theorem cascadeRow_id (users : List User) (oldTeam userID : String) (p : PullRequest) :
    (cascadeRow users oldTeam userID p).PullRequestID = p.PullRequestID := by
  unfold cascadeRow
  split
  · split <;> rfl
  · rfl

theorem cascade_step_eq {users : List User} {userID : String} {o : User}
    (ho : users.find? (fun u => u.UserID == userID) = some o) (p : PullRequest) :
    (if p.Status == "OPEN" && jsonbExists p.AssignedReviewers userID
      then reassignRow users userID p else p) = cascadeRow users o.TeamName userID p := by
  unfold cascadeRow
  by_cases hc : p.Status = "OPEN" ∧ userID ∈ p.AssignedReviewers
  · obtain ⟨hst, hmem⟩ := hc
    have hne : ¬ p.Status = "MERGED" := by rw [hst]; decide
    have hne2 : ¬ ("OPEN" : String) = "MERGED" := by decide
    simp only [hst, hmem, and_self, if_true, beq_self_eq_true, Bool.true_and,
      (jsonbExists_iff_mem _ _).mpr hmem]
    unfold reassignRow
    rw [rowCandidates_eq_spec ho]
    simp [hst, hne2, (contains_iff_mem _ _).mpr hmem]
  · rw [if_neg hc]
    have : (p.Status == "OPEN" && jsonbExists p.AssignedReviewers userID) = false := by
      cases hb : (p.Status == "OPEN" && jsonbExists p.AssignedReviewers userID) with
      | false => rfl
      | true =>
        simp only [Bool.and_eq_true, beq_iff_eq] at hb
        exact absurd ⟨hb.1, (jsonbExists_iff_mem _ _).mp hb.2⟩ hc
    simp [this]

theorem holdsRow_map_image {users : List User} {prs : List PullRequest} {pr : PullRequest}
    (f : PullRequest → PullRequest)
    (hk : (prs.map (fun p => p.PullRequestID)).Nodup) (hpr : pr ∈ prs)
    (hid : ∀ p, (f p).PullRequestID = p.PullRequestID) :
    Store.holdsRow ⟨users, prs.map f⟩ (f pr) := by
  constructor
  · exact List.mem_map.mpr ⟨pr, hpr, rfl⟩
  · intro q hq hqid
    simp only [List.mem_map] at hq
    obtain ⟨p, hp, rfl⟩ := hq
    rw [hid, hid] at hqid
    rw [pr_eq_of_keyed hk hp hpr hqid]

/-- C15: in a store that satisfies the key constraints and has a row for the user,
deactivateUserInTx leaves the pull request table with every row rewritten by the cascade
of the specification.  A pull request that was OPEN with the user among its reviewers
and a pool starting with `c` is afterwards the same row with `c` substituted for the
user, position by position, and the user gone from the list; with an empty pool it is
the row it was, the user still in its list; a pull request that was MERGED or did not
have the user as reviewer is the row it was. -/
theorem deactivate_cascade (s : Store) (userID : String) (o : User) (hk : s.Keyed)
    (ho : s.users.find? (fun u => u.UserID == userID) = some o) :
    (deactivateUserInTx s userID).2.pull_requests =
      s.pull_requests.map (cascadeRow s.users o.TeamName userID) ∧
    ∀ p ∈ s.pull_requests,
      (p.Status = "OPEN" → userID ∈ p.AssignedReviewers → ∀ c rest,
        specCandidatePool s.users o.TeamName userID p.AuthorID p.AssignedReviewers
          = c :: rest →
        (deactivateUserInTx s userID).2.holdsRow
          { p with AssignedReviewers := replaceInSlice p.AssignedReviewers userID c } ∧
        userID ∉ replaceInSlice p.AssignedReviewers userID c ∧
        ∀ i : Nat, (replaceInSlice p.AssignedReviewers userID c)[i]? =
          (p.AssignedReviewers[i]?).map (fun v => if v = userID then c else v)) ∧
      (p.Status = "OPEN" → userID ∈ p.AssignedReviewers →
        specCandidatePool s.users o.TeamName userID p.AuthorID p.AssignedReviewers = [] →
        (deactivateUserInTx s userID).2.holdsRow p) ∧
      (p.Status = "MERGED" ∨ userID ∉ p.AssignedReviewers →
        (deactivateUserInTx s userID).2.holdsRow p) := by
  have htable : (deactivateUserInTx s userID).2.pull_requests =
      s.pull_requests.map (cascadeRow s.users o.TeamName userID) := by
    rw [deactivate_prs_eq s userID hk.2]
    apply List.map_congr_left
    intro p _
    exact cascade_step_eq ho p
  have hsnd : (deactivateUserInTx s userID).2 =
      ⟨(deactivateUserInTx s userID).2.users,
        (deactivateUserInTx s userID).2.pull_requests⟩ := rfl
  have himg : ∀ p ∈ s.pull_requests,
      (deactivateUserInTx s userID).2.holdsRow (cascadeRow s.users o.TeamName userID p) := by
    intro p hp
    rw [hsnd, htable]
    exact holdsRow_map_image _ hk.2 hp (cascadeRow_id _ _ _)
  refine ⟨htable, ?_⟩
  intro p hp
  refine ⟨?_, ?_, ?_⟩
  · intro hst hmem c rest hpool
    have hrow : cascadeRow s.users o.TeamName userID p =
        { p with AssignedReviewers := replaceInSlice p.AssignedReviewers userID c } := by
      simp [cascadeRow, hst, hmem, hpool]
    have hcne : c ≠ userID := by
      have hc : c ∈ specCandidatePool s.users o.TeamName userID p.AuthorID
          p.AssignedReviewers := by rw [hpool]; exact List.mem_cons_self _ _
      unfold specCandidatePool at hc
      rw [List.mem_map] at hc
      obtain ⟨u, hu, rfl⟩ := hc
      rw [List.mem_filter] at hu
      have := hu.2
      simp only [decide_eq_true_eq] at this
      exact this.2.2.1
    refine ⟨hrow ▸ himg p hp, ?_, ?_⟩
    · intro hin
      rcases mem_replaceInSlice hin with h | ⟨_, h⟩
      · exact hcne h.symm
      · exact h rfl
    · intro i
      rw [replaceInSlice_eq_map, List.getElem?_map]
  · intro hst hmem hpool
    have hrow : cascadeRow s.users o.TeamName userID p = p := by
      simp [cascadeRow, hst, hmem, hpool]
    exact hrow ▸ himg p hp
  · intro hor
    have hrow : cascadeRow s.users o.TeamName userID p = p := by
      unfold cascadeRow
      rw [if_neg]
      rintro ⟨hst, hmem⟩
      rcases hor with h | h
      · rw [hst] at h; exact absurd h (by decide)
      · exact h hmem
    exact hrow ▸ himg p hp

/-- Run of C15: deactivating u2 on the example store puts u3 in its place on pr1 and
leaves pr2, which is MERGED, and pr3, which has no candidate, as they were. -/
theorem deactivate_cascade_witness :
    (deactivateUserInTx exampleStore "u2").2.pull_requests =
      [{ PullRequestID := "pr1", PullRequestName := "one", AuthorID := "u1",
         Status := "OPEN", AssignedReviewers := ["u3"], CreatedAt := 1, MergedAt := none },
       { PullRequestID := "pr2", PullRequestName := "two", AuthorID := "u1",
         Status := "MERGED", AssignedReviewers := ["u2", "u3"], CreatedAt := 2,
         MergedAt := some 3 },
       { PullRequestID := "pr3", PullRequestName := "three", AuthorID := "u1",
         Status := "OPEN", AssignedReviewers := ["u2", "u3"], CreatedAt := 4,
         MergedAt := none }] :=
  (deactivate_cascade exampleStore "u2" ⟨"u2", "Bob", "core", true⟩ (by decide)
    (by decide)).1.trans (by decide)

/-! ## absence at the HTTP boundary -/

theorem getTeam_of_absent (s : Store) (teamName : String)
    (h : ∀ u ∈ s.users, u.TeamName ≠ teamName) :
    GetTeam s teamName = .error (.wrap "GetTeam" .ErrTeamNotFound) := by
  have hnil : s.users.filter (fun u => u.TeamName == teamName) = [] := by
    rw [List.filter_eq_nil_iff]
    intro u hu
    simpa using h u hu
  simp [GetTeam, hnil]

theorem setUserActive_of_absent (s : Store) (userID : String) (isActive : Bool)
    (h : ∀ u ∈ s.users, u.UserID ≠ userID) :
    SetUserActive s userID isActive = (.error (.wrap "set user active" .ErrNotFound), s) := by
  have hmap : s.users.map
      (fun u => if u.UserID == userID then { u with IsActive := isActive } else u)
        = s.users := by
    conv_rhs => rw [← List.map_id s.users]
    apply List.map_congr_left
    intro u hu
    simp [h u hu]
  have hf : s.users.find? (fun u => u.UserID == userID) = none := by
    rw [List.find?_eq_none]
    intro u hu
    simpa using h u hu
  unfold SetUserActive
  simp only [hmap, hf]

theorem mergePR_of_absent (now : Nat) (s : Store) (prID : String)
    (h : ∀ p ∈ s.pull_requests, p.PullRequestID ≠ prID) :
    MergePR now s prID = (.error .ErrNotFound, s) := by
  have hmap : s.pull_requests.map
      (fun p => if p.PullRequestID == prID then mergeRow now p else p)
        = s.pull_requests := by
    apply map_rows_eq_self
    intro p hp e
    exact absurd e (h p hp)
  unfold MergePR
  simp only [hmap, find?_pr_none.mpr h]

theorem reassign_of_absent (s : Store) (prID oldUserID : String)
    (h : ∀ p ∈ s.pull_requests, p.PullRequestID ≠ prID) :
    ReassignReviewer s prID oldUserID = (.error .ErrNotFound, s) := by
  unfold ReassignReviewer
  simp only [find?_pr_none.mpr h]

/-- C14 on the code: for an absent team Handler.GetTeam writes 500, and for an absent
user Handler.SetUserActive writes 500, because the store hands back a wrapped error that
the comparison with the NotFound sentinel does not recognise; for an absent author or
pull request Handler.CreatePR, Handler.MergePR and Handler.ReassignReviewer, whose store
methods return the sentinel itself, write 404. -/
theorem absence_status (s : Store) :
    (∀ teamName, teamName ≠ "" → (∀ u ∈ s.users, u.TeamName ≠ teamName) →
      Handler.GetTeam s "GET" teamName = ⟨500, "INTERNAL_ERROR"⟩) ∧
    (∀ userID isActive, (∀ u ∈ s.users, u.UserID ≠ userID) →
      (Handler.SetUserActive s "POST" (some ⟨userID, isActive⟩)).1
        = ⟨500, "INTERNAL_ERROR"⟩) ∧
    (∀ shuffle now prID prName authorID,
      (∀ p ∈ s.pull_requests, p.PullRequestID ≠ prID) →
      (∀ u ∈ s.users, u.UserID ≠ authorID) →
      (Handler.CreatePR shuffle now s "POST" (some ⟨prID, prName, authorID⟩)).1
        = ⟨404, "NOT_FOUND"⟩) ∧
    (∀ now prID, (∀ p ∈ s.pull_requests, p.PullRequestID ≠ prID) →
      (Handler.MergePR now s "POST" (some ⟨prID⟩)).1 = ⟨404, "NOT_FOUND"⟩) ∧
    (∀ prID oldUserID, (∀ p ∈ s.pull_requests, p.PullRequestID ≠ prID) →
      (Handler.ReassignReviewer s "POST" (some ⟨prID, oldUserID⟩)).1
        = ⟨404, "NOT_FOUND"⟩) := by
  refine ⟨?_, ?_, ?_, ?_, ?_⟩
  · intro teamName hne h
    have hne2 : (teamName == "") = false := by simpa using hne
    unfold Handler.GetTeam
    rw [getTeam_of_absent s teamName h]
    simp only [hne2]
    decide
  · intro userID isActive h
    unfold Handler.SetUserActive
    simp only [setUserActive_of_absent s userID isActive h]
    rfl
  · intro shuffle now prID prName authorID hfree hno
    unfold Handler.CreatePR
    simp only [createPR_of_no_author shuffle now s prID prName authorID hfree hno]
    rfl
  · intro now prID h
    unfold Handler.MergePR
    simp only [mergePR_of_absent now s prID h]
    rfl
  · intro prID oldUserID h
    unfold Handler.ReassignReviewer
    simp only [reassign_of_absent s prID oldUserID h]
    rfl

/-- Run of C14 on the example store: the absent team ghost and the absent user u9 get
500, the absent author u9 and the absent pull request pr9 get 404. -/
theorem absence_status_witness :
    Handler.GetTeam exampleStore "GET" "ghost" = ⟨500, "INTERNAL_ERROR"⟩ ∧
    (Handler.SetUserActive exampleStore "POST" (some ⟨"u9", false⟩)).1
      = ⟨500, "INTERNAL_ERROR"⟩ ∧
    (Handler.CreatePR List.reverse 7 exampleStore "POST" (some ⟨"pr9", "new", "u9"⟩)).1
      = ⟨404, "NOT_FOUND"⟩ ∧
    (Handler.MergePR 9 exampleStore "POST" (some ⟨"pr9"⟩)).1 = ⟨404, "NOT_FOUND"⟩ ∧
    (Handler.ReassignReviewer exampleStore "POST" (some ⟨"pr9", "u2"⟩)).1
      = ⟨404, "NOT_FOUND"⟩ :=
  have h := absence_status exampleStore
  ⟨h.1 "ghost" (by decide) (by decide), h.2.1 "u9" false (by decide),
   h.2.2.1 List.reverse 7 "pr9" "new" "u9" (by decide) (by decide),
   h.2.2.2.1 9 "pr9" (by decide), h.2.2.2.2 "pr9" "u2" (by decide)⟩

end ReviewAssigner
